import Mathlib

/-!
# mp4decode: decode / seek / drain session and AVC to Annex-B reframing

A shallow embedding of `mp4decode.go`.  Go slices of bytes are lists of `Fin 256`,
Go integers are `Int`/`Nat` with explicit wrap-around at the places where the Go
code converts or adds machine integers, a Go `error` is an `Option GoError`
(`none` is `nil`), and a run-time panic of the Go program is a `Fault`.
-/

set_option autoImplicit false

namespace Mp4decode

/-! ## Machine integers -/

/-- A byte of a Go `[]byte`. -/
abbrev Byte := Fin 256

/-- Conversion to Go `int64` (two's complement wrap-around). -/
def int64 (x : Int) : Int := (x + 2 ^ 63) % 2 ^ 64 - 2 ^ 63

/-- Conversion to Go `uint64`. -/
def uint64 (x : Int) : Nat := (x % 2 ^ 64).toNat

/-- Conversion to Go `uint32`. -/
def uint32 (x : Nat) : Nat := x % 2 ^ 32

/-! ## Errors and faults -/

/-- Errors returned by the demuxer `mp4read`; `ErrEndOfStream` is the sentinel
`mp4read.ErrEndOfStream`, every other error value is `other code`. -/
inductive SourceError where
  | ErrEndOfStream
  | other (code : Nat)
deriving DecidableEq, Repr

/-- The error values that `mp4decode.go` can return.  `ErrEndOfStream` is the package
variable of `mp4decode`; `source e` is an error of the demuxer passed on unchanged;
the other constructors are the `fmt.Errorf` / `errors.New` sites of the file. -/
inductive GoError where
  | ErrEndOfStream
  | source (e : SourceError)
  | WelsCreateDecoder (ret : Int)
  | videoNotFound
  | InitializeStatus (r : Int)
  | DecodeFrame2 (r : Int)
  | cantGetCurrentData
  | DecodeFrameNoDelay (r : Int)
  | FlushFrame (r : Int)
  | notSupportFormat (f : Int)
  | notSupportLengthSize (lengthsize : Int)
deriving DecidableEq, Repr

/-- Ways in which a run of the Go code does not return: a run-time panic
(index out of range, nil dereference), or the fuel of the model running out. -/
inductive Fault where
  | indexOutOfRange
  | nilDereference
  | outOfFuel
deriving DecidableEq, Repr

instance {ε α : Type} [DecidableEq ε] [DecidableEq α] : DecidableEq (Except ε α) := by
  intro a b
  cases a with
  | error e1 =>
    cases b with
    | error e2 =>
      exact if h : e1 = e2 then isTrue (by rw [h]) else isFalse (by intro h2; cases h2; exact h rfl)
    | ok _ => exact isFalse (by intro h; cases h)
  | ok a1 =>
    cases b with
    | error _ => exact isFalse (by intro h; cases h)
    | ok a2 =>
      exact if h : a1 = a2 then isTrue (by rw [h]) else isFalse (by intro h2; cases h2; exact h rfl)

/-! ## avctoAnnexB -/

/-- The inner loop of `avctoAnnexB`,
`for i := 0; i < lengthsize; i++ { length = (length << 8) + uint32(buf[off+i]); buf[off+i] = 0 }`.
The first argument is the number `lengthsize - i` of rounds still to run. -/
def lengthLoop (off : Nat) : Nat → Nat → Nat → List Byte → Except Fault (Nat × List Byte)
  | 0, _, length, buf => .ok (length, buf)
  | n + 1, i, length, buf =>
    match buf[off + i]? with
    | none => .error .indexOutOfRange
    | some b =>
      lengthLoop off n (i + 1) (uint32 (uint32 (length <<< 8) + b.val)) (buf.set (off + i) 0)

/-- The outer loop of `avctoAnnexB`, `for off := 0; off+lengthsize < len(buf); { ... }`.
The variable `length` is declared outside the loop and is carried from one round to
the next.  The first argument is fuel. -/
def annexbLoop (lengthsize : Nat) : Nat → Nat → Nat → List Byte → Except Fault (List Byte)
  | fuel, off, length, buf =>
    if off + lengthsize < buf.length then
      match fuel with
      | 0 => .error .outOfFuel
      | fuel + 1 =>
        match lengthLoop off lengthsize 0 length buf with
        | .error f => .error f
        | .ok (length1, buf1) =>
          if off + lengthsize - 1 < buf1.length then
            annexbLoop lengthsize fuel (off + (lengthsize + length1)) length1
              (buf1.set (off + lengthsize - 1) 1)
          else .error .indexOutOfRange
    else .ok buf

/-- The function `avctoAnnexB(buf []byte, lengthsize int) ([]byte, error)`.  Every round of
the outer loop advances `off` by at least `lengthsize = 4`, so `len(buf)` rounds of fuel
are never used up. -/
def avctoAnnexB (buf : List Byte) (lengthsize : Int) : Except Fault (List Byte × Option GoError) :=
  if lengthsize ≠ 4 then .ok (buf, some (.notSupportLengthSize lengthsize))
  else
    match annexbLoop lengthsize.toNat buf.length 0 0 buf with
    | .error f => .error f
    | .ok out => .ok (out, none)

/-! ### Length-prefixed and start-code framing -/

/-- The 4-byte big-endian encoding of `n`. -/
def be32 (n : Nat) : List Byte :=
  [Fin.ofNat (n / 2 ^ 24), Fin.ofNat (n / 2 ^ 16), Fin.ofNat (n / 2 ^ 8), Fin.ofNat n]

/-- The AVC framing: every payload preceded by its length as a 4-byte big-endian integer. -/
def avcFrame : List (List Byte) → List Byte
  | [] => []
  | p :: ps => be32 p.length ++ p ++ avcFrame ps

/-- The Annex-B framing: every payload preceded by the start code `0,0,0,1`. -/
def annexbFrame : List (List Byte) → List Byte
  | [] => []
  | p :: ps => [0, 0, 0, 1] ++ p ++ annexbFrame ps

/-! ## Data model -/

/-- The fields of `mp4read.VideoSampleInfo` that `mp4decode.go` reads: `Number` and
`CompositionTime` are `int64`, `TimeDelta` is an unsigned integer that the code converts
with `int64(..)`, `NalLengthSize` is an `int`. -/
structure VideoSampleInfo where
  Number : Int
  CompositionTime : Int
  TimeDelta : Nat
  NalLengthSize : Int
deriving DecidableEq, Repr

/-- The Go zero value `var sample mp4read.VideoSampleInfo`. -/
def VideoSampleInfo.zero : VideoSampleInfo := ⟨0, 0, 0, 0⟩

/-- A `[3][]byte`: three planes, each a possibly nil slice. -/
structure Planes where
  plane0 : Option (List Byte)
  plane1 : Option (List Byte)
  plane2 : Option (List Byte)
deriving DecidableEq, Repr

/-- The Go zero value `var pDst [3][]byte`. -/
def Planes.zero : Planes := ⟨none, none, none⟩

/-- The fields of `openh264.SBufferInfo` that `mp4decode.go` reads or writes; the last five
are what `UsrData_sSystemBuffer()` gives. -/
structure SBufferInfo where
  IBufferStatus : Int
  UiInBsTimeStamp : Nat
  UiOutYuvTimeStamp : Nat
  IFormat : Int
  IWidth : Int
  IHeight : Int
  IStride0 : Int
  IStride1 : Int
deriving DecidableEq, Repr

/-- The Go zero value `var BufferInfo openh264.SBufferInfo`. -/
def SBufferInfo.zero : SBufferInfo := ⟨0, 0, 0, 0, 0, 0, 0, 0⟩

/-- The fields of `openh264.SDecodingParam` that `init` sets. -/
structure SDecodingParam where
  UiTargetDqLayer : Nat
  EEcActiveIdc : Nat
  Size : Nat
  EVideoBsType : Nat
deriving DecidableEq, Repr

/-- The picture that `Read` wraps around the planes (`image.YCbCr`); `Rect` is
`(Min.X, Min.Y, Max.X, Max.Y)`, the subsample ratio is always `YCbCrSubsampleRatio420`. -/
structure YCbCr where
  Y : Option (List Byte)
  Cb : Option (List Byte)
  Cr : Option (List Byte)
  YStride : Int
  CStride : Int
  Rect : Int × Int × Int × Int
deriving DecidableEq, Repr

/-- The function `image.Rect(x0, y0, x1, y1)`, which orders the corners. -/
def imageRect (x0 y0 x1 y1 : Int) : Int × Int × Int × Int :=
  (min x0 x1, min y0 y1, max x0 x1, max y0 y1)

/-- The in-flight map `map[int64]mp4read.VideoSampleInfo`, as a list of entries with
pairwise different keys. -/
abbrev SampleMap := List (Int × VideoSampleInfo)

/-- The map read `m[k]` with its `ok` flag. -/
def SampleMap.get (m : SampleMap) (k : Int) : Option VideoSampleInfo :=
  match m with
  | [] => none
  | (j, x) :: rest => if j = k then some x else SampleMap.get rest k

/-- The Go statement `delete(m, k)`. -/
def SampleMap.delete (m : SampleMap) (k : Int) : SampleMap :=
  m.filter (fun e => decide (e.1 ≠ k))

/-- The Go statement `m[k] = x`. -/
def SampleMap.put (m : SampleMap) (k : Int) (x : VideoSampleInfo) : SampleMap :=
  (k, x) :: m.delete k

/-! ## The two collaborators -/

/-- The methods of `*mp4read.Mp4read` that `mp4decode.go` calls, as functions on an
abstract demuxer state `σ`.  `NextSample` writes the sample through a pointer, so it also
receives the previous contents of that variable. -/
structure Mp4read (σ : Type) where
  Initialize : σ → σ × Option SourceError
  NextSample : σ → VideoSampleInfo → σ × VideoSampleInfo × Option SourceError
  ReadMdatAtSample : σ → VideoSampleInfo → List Byte → σ × List Byte × Option SourceError
  Seek : σ → Int → Bool → σ × Bool × Option SourceError
  Close : σ → Option SourceError
  GetSPSPPS : σ → List (List Byte)
  Duration : σ → Int
  Timescale : σ → Nat

/-- The functions of `openh264` that `mp4decode.go` calls, on an abstract decoder state `δ`.
The calls that fill `pDst` and the buffer info through pointers receive their previous
contents and return the new ones.  `GetOption` is the query
`DECODER_OPTION_NUM_OF_FRAMES_REMAINING_IN_BUFFER` (it receives the previous value of `n`),
`SetOption` is `DECODER_OPTION_END_OF_STREAM`.  The last four fields are constants of the
library. -/
structure ISVCDecoder (δ : Type) where
  WelsCreateDecoder : Int × Option δ
  Initialize : δ → SDecodingParam → δ × Int
  Uninitialize : δ → δ
  DecodeFrame2 : δ → List Byte → Int → Planes → SBufferInfo → δ × Int × Planes × SBufferInfo
  DecodeFrameNoDelay : δ → List Byte → Int → Planes → SBufferInfo → δ × Int × Planes × SBufferInfo
  FlushFrame : δ → Planes → SBufferInfo → δ × Int × Planes × SBufferInfo
  GetOption : δ → Int → δ × Int
  SetOption : δ → Int → δ
  VideoFormatI420 : Int
  ERROR_CON_SLICE_MV_COPY_CROSS_IDR_FREEZE_RES_CHANGE : Nat
  VIDEO_BITSTREAM_DEFAULT : Nat
  sizeofSVideoProperty : Nat

/-- The environment of a session: the demuxer, the decoder, and the floating-point
conversion `int64((float64(timestamp) / float64(time.Second)) * float64(timescale))`
of `SeekByTime`, which is not modelled further. -/
structure Env (σ δ : Type) where
  src : Mp4read σ
  dec : ISVCDecoder δ
  toUnits : Int → Nat → Int

/-- A call of a collaborator, recorded in the order in which the session makes it. -/
inductive Call where
  | InitializeSource
  | NextSample
  | ReadMdatAtSample
  | srcSeek
  | srcClose
  | GetSPSPPS
  | Timescale
  | WelsCreateDecoder
  | WelsDestroyDecoder
  | InitializeDecoder
  | UninitializeDecoder
  | DecodeFrame2
  | DecodeFrameNoDelay
  | FlushFrame
  | GetOption
  | SetOption
deriving DecidableEq, Repr

/-! ## The session -/

/-- The struct `Mp4dec`.  A nil `mp4read` or `Decoder` pointer is `none`.  The field `calls`
is not a field of the Go struct: it records every call the session makes to a collaborator. -/
structure Mp4dec (σ δ : Type) where
  mp4read : Option σ
  sampleBuffer : List Byte
  currentSample : Option VideoSampleInfo
  samplesinDecoder : SampleMap
  Decoder : Option δ
  DecParam : SDecodingParam
  DstBufInfo : SBufferInfo
  frameNumber : Int
  seekframe : Option Planes
  num_of_frames_in_buffer : Int
  openh264Initialize : Bool
  calls : List Call
deriving DecidableEq, Repr

section Session

variable {σ δ : Type}

/-- Record a call of a collaborator. -/
def Mp4dec.log (v : Mp4dec σ δ) (c : Call) : Mp4dec σ δ :=
  { v with calls := v.calls ++ [c] }

/-- The method `init`: create the decoder and set up the session fields. -/
def init (env : Env σ δ) (v : Mp4dec σ δ) : Option GoError × Mp4dec σ δ :=
  match env.dec.WelsCreateDecoder with
  | (ret, none) => (some (.WelsCreateDecoder ret), v.log .WelsCreateDecoder)
  | (ret, some ppdec) =>
    if ret ≠ 0 then (some (.WelsCreateDecoder ret), v.log .WelsCreateDecoder)
    else
      (none,
        { v.log .WelsCreateDecoder with
          Decoder := some ppdec
          DecParam :=
            { UiTargetDqLayer := 0xff
              EEcActiveIdc := env.dec.ERROR_CON_SLICE_MV_COPY_CROSS_IDR_FREEZE_RES_CHANGE
              Size := env.dec.sizeofSVideoProperty
              EVideoBsType := env.dec.VIDEO_BITSTREAM_DEFAULT }
          DstBufInfo := SBufferInfo.zero
          samplesinDecoder := []
          frameNumber := -1 })

/-- The constructor `NewFromReadSeeker` (and `NewFromFile`), given the result `fh, err` of
opening the demuxer. -/
def NewFromReadSeeker (env : Env σ δ) (fh : σ) (err : Option SourceError) :
    Option (Mp4dec σ δ) × Option GoError :=
  match err with
  | some e => (none, some (.source e))
  | none =>
    let ret : Mp4dec σ δ :=
      { mp4read := some fh, sampleBuffer := [], currentSample := none, samplesinDecoder := [],
        Decoder := none, DecParam := ⟨0, 0, 0, 0⟩, DstBufInfo := SBufferInfo.zero,
        frameNumber := 0, seekframe := none, num_of_frames_in_buffer := 0,
        openh264Initialize := false, calls := [] }
    match init env ret with
    | (some e, _) => (none, some e)
    | (none, v) => (some v, none)

/-- The method `Close`. -/
def Close (env : Env σ δ) (v : Mp4dec σ δ) : Option GoError × Mp4dec σ δ :=
  let v1 : Mp4dec σ δ :=
    match v.Decoder with
    | some d =>
      let d0 := ISVCDecoder.Uninitialize env.dec d
      let v0 : Mp4dec σ δ :=
        if Mp4dec.openh264Initialize v then
          ({ v with Decoder := some d0, openh264Initialize := false }).log .UninitializeDecoder
        else v
      ({ v0 with Decoder := none }).log .WelsDestroyDecoder
    | none => v
  match v1.mp4read with
  | some m =>
    let v2 := ({ v1 with mp4read := none }).log .srcClose
    match env.src.Close m with
    | some e => (some (.source e), v2)
    | none => (none, v2)
  | none => (none, v1)

/-- The method `decoderInit`.  A method call on the nil `Decoder` or `mp4read` pointer is a
nil dereference. -/
def decoderInit (env : Env σ δ) (v : Mp4dec σ δ) : Except Fault (Option GoError × Mp4dec σ δ) :=
  match v.Decoder with
  | none => .error .nilDereference
  | some d =>
    let d' := ISVCDecoder.Uninitialize env.dec d
    let (d0, v0) : δ × Mp4dec σ δ :=
      if Mp4dec.openh264Initialize v then
        (d', ({ v with Decoder := some d', openh264Initialize := false }).log .UninitializeDecoder)
      else (d, v)
    match ISVCDecoder.Initialize env.dec d0 v0.DecParam with
    | (d1, r) =>
      let v1 := ({ v0 with Decoder := some d1 }).log .InitializeDecoder
      if r ≠ 0 then .ok (some (.InitializeStatus r), v1)
      else
        let v2 := { v1 with openh264Initialize := true }
        match v2.mp4read with
        | none => .error .nilDereference
        | some m =>
          let spspps := env.src.GetSPSPPS m
          let v3 := v2.log .GetSPSPPS
          if spspps.length > 0 then
            let annexb := spspps.foldl (fun acc x => acc ++ [0, 0, 0, 1] ++ x) []
            match env.dec.DecodeFrame2 d1 annexb annexb.length Planes.zero v3.DstBufInfo with
            | (d2, r2, _, info) =>
              let v4 := ({ v3 with Decoder := some d2, DstBufInfo := info }).log .DecodeFrame2
              if r2 ≠ 0 then .ok (some (.DecodeFrame2 r2), v4) else .ok (none, v4)
          else .ok (none, v3)

/-- The method `Initialize`. -/
def Initialize (env : Env σ δ) (v : Mp4dec σ δ) : Except Fault (Option GoError × Mp4dec σ δ) :=
  match v.mp4read with
  | none => .error .nilDereference
  | some m =>
    match Mp4read.Initialize env.src m with
    | (m1, some e) => .ok (some (.source e), ({ v with mp4read := some m1 }).log .InitializeSource)
    | (m1, none) => decoderInit env (({ v with mp4read := some m1 }).log .InitializeSource)

/-- The method `inDecoder`: is the time inside the interval of some in-flight sample. -/
def inDecoder (v : Mp4dec σ δ) (timestamp : Int) : Bool :=
  v.samplesinDecoder.any fun e =>
    decide (e.2.CompositionTime ≤ timestamp ∧
      timestamp < int64 (e.2.CompositionTime + int64 e.2.TimeDelta))

/-- The loop `for n > 0 { n--; v.Decoder.FlushFrame(&pDst, &BufferInfo) }` of `flush`. -/
def flushFrames (env : Env σ δ) : Nat → δ × Planes × SBufferInfo → δ × Planes × SBufferInfo
  | 0, st => st
  | n + 1, (d, pDst, info) =>
    match env.dec.FlushFrame d pDst info with
    | (d1, _, pDst1, info1) => flushFrames env n (d1, pDst1, info1)

/-- The method `flush`. -/
def flush (env : Env σ δ) (v : Mp4dec σ δ) : Except Fault (Mp4dec σ δ) :=
  let v1 := { v with seekframe := none, frameNumber := -1, samplesinDecoder := [] }
  match v1.Decoder with
  | none => .error .nilDereference
  | some d =>
    match env.dec.GetOption d 0 with
    | (d1, n) =>
      match flushFrames env n.toNat (d1, Planes.zero, SBufferInfo.zero) with
      | (d2, _, _) =>
        .ok { v1 with
          Decoder := some d2
          calls := v1.calls ++ [Call.GetOption] ++ List.replicate n.toNat Call.FlushFrame }

/-- How one round of the sample loop of `ReadRaw` ends: with `continue`, with `break`, or
with a `return`. -/
inductive Step (σ δ : Type) where
  | next (sample : VideoSampleInfo) (v : Mp4dec σ δ)
  | brk (v : Mp4dec σ δ)
  | ret (raw : Option Planes) (err : Option GoError) (v : Mp4dec σ δ)

/-- Lines 322-336 of `ReadRaw`: what follows the call of `DecodeFrameNoDelay`. -/
def afterDecode (sample : VideoSampleInfo) (pDst : Planes) (BufferInfo : SBufferInfo)
    (err : Option GoError) (v : Mp4dec σ δ) : Step σ δ :=
  if pDst.plane0 ≠ none ∧ BufferInfo.IBufferStatus = 1 then
    let k := int64 BufferInfo.UiOutYuvTimeStamp
    match v.samplesinDecoder.get k with
    | some sampledata =>
      let v1 :=
        { v with
          samplesinDecoder := v.samplesinDecoder.delete k
          currentSample := some sampledata
          frameNumber := if v.frameNumber = -1 then sampledata.Number else v.frameNumber }
      .ret (some pDst) err { v1 with frameNumber := int64 (v1.frameNumber + 1) }
    | none =>
      .ret (some pDst) err
        { v with currentSample := none, frameNumber := int64 (v.frameNumber + 1) }
  else if err ≠ none then .ret none err v
  else .next sample v

/-- Lines 312-337 of `ReadRaw`: the statement `if len(v.sampleBuffer) > 0 { ... }`, which
registers the sample in the in-flight map and then calls the decoder. -/
def decodeSample (env : Env σ δ) (sample : VideoSampleInfo) (v : Mp4dec σ δ) :
    Except Fault (Step σ δ) :=
  if v.sampleBuffer.length > 0 then
    match v.Decoder with
    | none => .error .nilDereference
    | some d =>
      match env.dec.DecodeFrameNoDelay d v.sampleBuffer v.sampleBuffer.length Planes.zero
          { SBufferInfo.zero with UiInBsTimeStamp := uint64 sample.Number } with
      | (d1, r, pDst, BufferInfo) =>
        .ok (afterDecode sample pDst BufferInfo
          (if r ≠ 0 then some (.DecodeFrameNoDelay r) else none)
          (({ v with
              samplesinDecoder := v.samplesinDecoder.put sample.Number sample
              Decoder := some d1
              DstBufInfo := BufferInfo }).log .DecodeFrameNoDelay))
  else .ok (.next sample v)

/-- One round of the sample loop of `ReadRaw` (lines 298-337). -/
def readStep (env : Env σ δ) (sample : VideoSampleInfo) (v : Mp4dec σ δ) :
    Except Fault (Step σ δ) :=
  match v.mp4read with
  | none => .error .nilDereference
  | some m =>
    match env.src.NextSample m sample with
    | (m1, _, some e) =>
      if e = SourceError.ErrEndOfStream then
        .ok (.brk (({ v with mp4read := some m1 }).log .NextSample))
      else .ok (.ret none (some (.source e)) (({ v with mp4read := some m1 }).log .NextSample))
    | (m1, sample1, none) =>
      match env.src.ReadMdatAtSample m1 sample1 v.sampleBuffer with
      | (m2, _, some e) =>
        .ok (.ret none (some (.source e))
          ((({ v with mp4read := some m2 }).log .NextSample).log .ReadMdatAtSample))
      | (m2, avc, none) =>
        match avctoAnnexB avc sample1.NalLengthSize with
        | .error f => .error f
        | .ok (_, some e) =>
          .ok (.ret none (some e)
            ((({ v with mp4read := some m2 }).log .NextSample).log .ReadMdatAtSample))
        | .ok (annexb, none) =>
          decodeSample env sample1
            ((({ v with mp4read := some m2, sampleBuffer := annexb }).log .NextSample).log
              .ReadMdatAtSample)

/-- The sample loop `for { ... }` of `ReadRaw` (lines 297-339), with fuel. -/
def readLoop (env : Env σ δ) : Nat → VideoSampleInfo → Mp4dec σ δ → Except Fault (Step σ δ)
  | 0, _, _ => .error .outOfFuel
  | fuel + 1, sample, v =>
    match readStep env sample v with
    | .error f => .error f
    | .ok (.next sample1 v1) => readLoop env fuel sample1 v1
    | .ok r => .ok r

/-- How one round of the drain loop of `ReadRaw` ends: with the next round or with a
`return`. -/
inductive Round (σ δ : Type) where
  | next (v : Mp4dec σ δ)
  | ret (raw : Option Planes) (err : Option GoError) (v : Mp4dec σ δ)

/-- Lines 360-371 of `ReadRaw`: what follows the call of `FlushFrame`. -/
def afterFlush (pDst : Planes) (BufferInfo : SBufferInfo) (err : Option GoError)
    (v : Mp4dec σ δ) : Round σ δ :=
  if pDst.plane0 ≠ none ∧ BufferInfo.IBufferStatus = 1 then
    let k := int64 BufferInfo.UiOutYuvTimeStamp
    match v.samplesinDecoder.get k with
    | some data =>
      .ret (some pDst) err
        { v with
          samplesinDecoder := v.samplesinDecoder.delete k
          currentSample := some data
          frameNumber := int64 (v.frameNumber + 1) }
    | none =>
      .ret (some pDst) err
        { v with currentSample := none, frameNumber := int64 (v.frameNumber + 1) }
  else if err ≠ none then .ret none err v
  else .next v

/-- One round of the drain loop of `ReadRaw` (lines 348-371). -/
def drainStep (env : Env σ δ) (v : Mp4dec σ δ) : Except Fault (Round σ δ) :=
  match v.Decoder with
  | none => .error .nilDereference
  | some d =>
    match env.dec.FlushFrame d Planes.zero SBufferInfo.zero with
    | (d1, r, pDst, BufferInfo) =>
      .ok (afterFlush pDst BufferInfo (if r ≠ 0 then some (.FlushFrame r) else none)
        (({ v with
            num_of_frames_in_buffer :=
              if v.num_of_frames_in_buffer - 1 = 0 then -1 else v.num_of_frames_in_buffer - 1
            Decoder := some d1
            DstBufInfo := BufferInfo }).log .FlushFrame))

/-- The drain loop `for v.num_of_frames_in_buffer > 0 { ... }` of `ReadRaw` and the two
statements after it (lines 347-374).  The first argument is fuel. -/
def drainLoop (env : Env σ δ) :
    Nat → Mp4dec σ δ → Except Fault (Option Planes × Option GoError × Mp4dec σ δ)
  | fuel, v =>
    if v.num_of_frames_in_buffer > 0 then
      match fuel with
      | 0 => .error .outOfFuel
      | fuel + 1 =>
        match drainStep env v with
        | .error f => .error f
        | .ok (.next v1) => drainLoop env fuel v1
        | .ok (.ret raw err v1) => .ok (raw, err, v1)
    else .ok (none, some .ErrEndOfStream, { v with num_of_frames_in_buffer := -1 })

/-- Lines 341-374 of `ReadRaw`: what follows the `break` of the sample loop.  The drain
loop lowers a positive counter every round, so the counter itself is enough fuel. -/
def drain (env : Env σ δ) (v : Mp4dec σ δ) :
    Except Fault (Option Planes × Option GoError × Mp4dec σ δ) :=
  if v.num_of_frames_in_buffer = 0 then
    match v.Decoder with
    | none => .error .nilDereference
    | some d =>
      match env.dec.GetOption (env.dec.SetOption d 1) 1 with
      | (d1, n) =>
        let v1 :=
          { v with
            Decoder := some d1
            num_of_frames_in_buffer := n
            calls := v.calls ++ [Call.SetOption, Call.GetOption] }
        drainLoop env v1.num_of_frames_in_buffer.toNat v1
  else drainLoop env v.num_of_frames_in_buffer.toNat v

/-- The method `ReadRaw`.  The fuel bounds the number of samples pulled from the demuxer.
The sample loop never hands back a `continue` (`readLoop_not_next`), so the second case of
the inner match is never taken. -/
def ReadRaw (env : Env σ δ) (fuel : Nat) (v : Mp4dec σ δ) :
    Except Fault (Option Planes × Option GoError × Mp4dec σ δ) :=
  match v.seekframe with
  | some tmp => .ok (some tmp, none, { v with seekframe := none })
  | none =>
    if v.num_of_frames_in_buffer = -1 then .ok (none, some .ErrEndOfStream, v)
    else
      match readLoop env fuel VideoSampleInfo.zero v with
      | .error f => .error f
      | .ok (.next _ _) => .error .outOfFuel
      | .ok (.ret raw err v1) => .ok (raw, err, v1)
      | .ok (.brk v1) => drain env v1

/-- The method `Read`. -/
def Read (env : Env σ δ) (fuel : Nat) (v : Mp4dec σ δ) :
    Except Fault (Option YCbCr × Option GoError × Mp4dec σ δ) :=
  match ReadRaw env fuel v with
  | .error f => .error f
  | .ok (none, err, v1) => .ok (none, err, v1)
  | .ok (some buf, err, v1) =>
    let t := v1.DstBufInfo
    if t.IFormat ≠ env.dec.VideoFormatI420 then .ok (none, some (.notSupportFormat t.IFormat), v1)
    else
      .ok (some
          { Y := buf.plane0, Cb := buf.plane1, Cr := buf.plane2
            YStride := t.IStride0, CStride := t.IStride1
            Rect := imageRect 0 0 t.IWidth t.IHeight },
        err, v1)

/-- The method `move`: the forward scan.  The fuel bounds the number of frames read, and
is also the fuel of every `ReadRaw` of the scan. -/
def move (env : Env σ δ) (timestamp : Int) :
    Nat → Mp4dec σ δ → Except Fault (Option GoError × Mp4dec σ δ)
  | 0, _ => .error .outOfFuel
  | fuel + 1, v =>
    match ReadRaw env (fuel + 1) v with
    | .error f => .error f
    | .ok (_, some err, v1) => .ok (some err, v1)
    | .ok (raw, none, v1) =>
      match v1.currentSample with
      | none => .ok (some .cantGetCurrentData, v1)
      | some cur =>
        if int64 (cur.CompositionTime + int64 cur.TimeDelta) > timestamp then
          .ok (none, { v1 with seekframe := raw })
        else move env timestamp fuel v1

/-- The method `Seek`.  The result of `decoderInit` is not used. -/
def Seek (env : Env σ δ) (fuel : Nat) (timestamp : Int) (v : Mp4dec σ δ) :
    Except Fault (Option GoError × Mp4dec σ δ) :=
  match v.mp4read with
  | none => .ok (some .videoNotFound, v)
  | some m =>
    if !inDecoder v timestamp then
      match env.src.Seek m timestamp false with
      | (m1, _, some e) => .ok (some (.source e), ({ v with mp4read := some m1 }).log .srcSeek)
      | (m1, ts, none) =>
        let v1 := ({ v with mp4read := some m1 }).log .srcSeek
        if ts then
          match flush env v1 with
          | .error f => .error f
          | .ok v2 =>
            match decoderInit env v2 with
            | .error f => .error f
            | .ok (_, v3) => move env timestamp fuel v3
        else move env timestamp fuel v1
    else move env timestamp fuel v

/-- The method `SeekByTime`. -/
def SeekByTime (env : Env σ δ) (fuel : Nat) (timestamp : Int) (v : Mp4dec σ δ) :
    Except Fault (Option GoError × Mp4dec σ δ) :=
  match v.mp4read with
  | none => .ok (some .videoNotFound, v)
  | some m => Seek env fuel (env.toUnits timestamp (env.src.Timescale m)) (v.log .Timescale)

/-- The method `CurrentFrameNumber`. -/
def CurrentFrameNumber (v : Mp4dec σ δ) : Int := v.frameNumber

/-- The method `CurrentCompositionTime`. -/
def CurrentCompositionTime (v : Mp4dec σ δ) : Int :=
  match v.currentSample with
  | none => -1
  | some cur => cur.CompositionTime

/-- The method `CurrentTimeDelta`. -/
def CurrentTimeDelta (v : Mp4dec σ δ) : Int :=
  match v.currentSample with
  | none => -1
  | some cur => int64 cur.TimeDelta

/-- The method `Duration`. -/
def Duration (env : Env σ δ) (v : Mp4dec σ δ) : Int :=
  match v.mp4read with
  | none => 0
  | some m => env.src.Duration m

end Session

/-! ## Sequences of calls -/

section Ops

variable {σ δ : Type}

/-- The state of the sample loop of `ReadRaw` after `j` rounds that all ended with
`continue`, if the loop gets that far. -/
def roundsNext (env : Env σ δ) :
    Nat → VideoSampleInfo → Mp4dec σ δ → Option (VideoSampleInfo × Mp4dec σ δ)
  | 0, sample, v => some (sample, v)
  | j + 1, sample, v =>
    match readStep env sample v with
    | .ok (.next sample1 v1) => roundsNext env j sample1 v1
    | _ => none

/-- A call of a method of the session by its user, with the fuel given to it. -/
inductive Op where
  | Init
  | Seek (fuel : Nat) (timestamp : Int)
  | SeekByTime (fuel : Nat) (timestamp : Int)
  | ReadRaw (fuel : Nat)
  | Read (fuel : Nat)
  | Close
deriving DecidableEq, Repr

/-- The session after one call, whatever the call returned. -/
def runOp (env : Env σ δ) (op : Op) (v : Mp4dec σ δ) : Except Fault (Mp4dec σ δ) :=
  match op with
  | .Init => Except.map (fun r => r.2) <| Initialize env v
  | .Seek fuel t => (Seek env fuel t v).map fun r => r.2
  | .SeekByTime fuel t => (SeekByTime env fuel t v).map fun r => r.2
  | .ReadRaw fuel => (ReadRaw env fuel v).map fun r => r.2.2
  | .Read fuel => (Read env fuel v).map fun r => r.2.2
  | .Close => .ok (Close env v).2

/-- The session after a sequence of calls. -/
def runOps (env : Env σ δ) : List Op → Mp4dec σ δ → Except Fault (Mp4dec σ δ)
  | [], v => .ok v
  | op :: ops, v =>
    match runOp env op v with
    | .error f => .error f
    | .ok v1 => runOps env ops v1

end Ops

/-! ## A small concrete environment

A demuxer whose state is the list of samples still to come together with the whole track,
and a decoder without reordering: every decode call yields the picture of the unit just
submitted.  The state of the decoder is the status that its priming call `DecodeFrame2`
reports. -/

/-- A track of three samples; the first composition time is 1000. -/
def demoTrack : List VideoSampleInfo :=
  [⟨0, 1000, 1000, 4⟩, ⟨1, 2000, 1000, 4⟩, ⟨2, 3000, 1000, 4⟩]

/-- The demuxer of the concrete environment.  `Seek` goes back to the first sample and
reports a discontinuity. -/
def demoSrc : Mp4read (List VideoSampleInfo × List VideoSampleInfo) where
  Initialize := fun m => (m, none)
  NextSample := fun m sample =>
    match m.1 with
    | [] => (m, sample, some .ErrEndOfStream)
    | x :: rest => ((rest, m.2), x, none)
  ReadMdatAtSample := fun m sample _ => (m, [0, 0, 0, 1, Fin.ofNat sample.Number.toNat], none)
  Seek := fun m _ _ => ((m.2, m.2), true, none)
  Close := fun _ => none
  GetSPSPPS := fun _ => [[103, 66], [104, 206]]
  Duration := fun _ => 4000
  Timescale := fun _ => 1000

/-- The picture that the concrete decoder gives for the unit with key `k`. -/
def demoPicture (k : Nat) : Planes := ⟨some [Fin.ofNat k], some [], some []⟩

/-- The decoder of the concrete environment. -/
def demoDec : ISVCDecoder Int where
  WelsCreateDecoder := (0, some 0)
  Initialize := fun d _ => (d, 0)
  Uninitialize := fun d => d
  DecodeFrame2 := fun d _ _ pDst info => (d, d, pDst, info)
  DecodeFrameNoDelay := fun d _ _ _ info =>
    (d, 0, demoPicture info.UiInBsTimeStamp,
      { info with IBufferStatus := 1, UiOutYuvTimeStamp := info.UiInBsTimeStamp, IFormat := 23 })
  FlushFrame := fun d pDst info => (d, 0, pDst, info)
  GetOption := fun d _ => (d, 0)
  SetOption := fun d _ => d
  VideoFormatI420 := 23
  ERROR_CON_SLICE_MV_COPY_CROSS_IDR_FREEZE_RES_CHANGE := 7
  VIDEO_BITSTREAM_DEFAULT := 0
  sizeofSVideoProperty := 8

/-- The concrete environment. -/
def demoEnv : Env (List VideoSampleInfo × List VideoSampleInfo) Int where
  src := demoSrc
  dec := demoDec
  toUnits := fun t scale => t * scale / 1000000000

/-- A session on the concrete track, as `NewFromReadSeeker` and `Initialize` leave it, with
a decoder whose priming call reports `status`. -/
def demoSession (status : Int) : Mp4dec (List VideoSampleInfo × List VideoSampleInfo) Int :=
  { mp4read := some (demoTrack, demoTrack), sampleBuffer := [], currentSample := none
    samplesinDecoder := [], Decoder := some status, DecParam := ⟨255, 7, 8, 0⟩
    DstBufInfo := SBufferInfo.zero, frameNumber := -1, seekframe := none
    num_of_frames_in_buffer := 0, openh264Initialize := true, calls := [] }

/-- The concrete session after a `Seek` that found its frame: the picture of sample 0 is
held as the seek frame. -/
def demoHeld : Mp4dec (List VideoSampleInfo × List VideoSampleInfo) Int :=
  { demoSession 0 with
    mp4read := some (demoTrack.tail, demoTrack)
    sampleBuffer := [0, 0, 0, 1, 0]
    currentSample := some ⟨0, 1000, 1000, 4⟩
    DstBufInfo := { SBufferInfo.zero with IBufferStatus := 1, IFormat := 23 }
    frameNumber := 1
    seekframe := some (demoPicture 0)
    calls :=
      [Call.srcSeek, Call.GetOption, Call.UninitializeDecoder, Call.InitializeDecoder,
        Call.GetSPSPPS, Call.DecodeFrame2, Call.NextSample, Call.ReadMdatAtSample,
        Call.DecodeFrameNoDelay] }

/-- The concrete session with a held seek frame in the phase Exhausted. -/
def demoHeldExhausted : Mp4dec (List VideoSampleInfo × List VideoSampleInfo) Int :=
  { demoHeld with num_of_frames_in_buffer := -1 }

/-- The concrete session when the demuxer has no sample left. -/
def demoAtEnd : Mp4dec (List VideoSampleInfo × List VideoSampleInfo) Int :=
  { demoSession 0 with mp4read := some ([], demoTrack) }

/-- The concrete session after `ReadRaw` has returned `ErrEndOfStream`. -/
def demoExhausted : Mp4dec (List VideoSampleInfo × List VideoSampleInfo) Int :=
  { demoAtEnd with
    num_of_frames_in_buffer := -1
    calls := [Call.NextSample, Call.SetOption, Call.GetOption] }

/-- The concrete Exhausted session after a `Seek` back to the start of the track. -/
def demoExhaustedSought : Mp4dec (List VideoSampleInfo × List VideoSampleInfo) Int :=
  { demoExhausted with
    mp4read := some (demoTrack, demoTrack)
    calls :=
      [Call.NextSample, Call.SetOption, Call.GetOption, Call.srcSeek, Call.GetOption,
        Call.UninitializeDecoder, Call.InitializeDecoder, Call.GetSPSPPS, Call.DecodeFrame2] }

/-- The concrete session, with a decoder whose priming call reports `status`, after the
demuxer has been asked to seek. -/
def demoSought (status : Int) : Mp4dec (List VideoSampleInfo × List VideoSampleInfo) Int :=
  (demoSession status).log .srcSeek

/-! ## A decoder that holds one picture back

The state of this decoder is the key of the unit whose picture it still holds: a decode
call yields the picture of the unit before, and the last picture comes out with the flush at
the end of the stream. -/

/-- The decoder with a delay of one picture. -/
def lagDec : ISVCDecoder (Option Nat) where
  WelsCreateDecoder := (0, some none)
  Initialize := fun _ _ => (none, 0)
  Uninitialize := fun _ => none
  DecodeFrame2 := fun d _ _ pDst info => (d, 0, pDst, info)
  DecodeFrameNoDelay := fun d _ _ pDst info =>
    match d with
    | none => (some info.UiInBsTimeStamp, 0, pDst, info)
    | some b =>
      (some info.UiInBsTimeStamp, 0, demoPicture b,
        { info with IBufferStatus := 1, UiOutYuvTimeStamp := b, IFormat := 23 })
  FlushFrame := fun d pDst info =>
    match d with
    | none => (none, 0, pDst, info)
    | some b =>
      (none, 0, demoPicture b,
        { info with IBufferStatus := 1, UiOutYuvTimeStamp := b, IFormat := 23 })
  GetOption := fun d _ => (d, if d.isSome then 1 else 0)
  SetOption := fun d _ => d
  VideoFormatI420 := 23
  ERROR_CON_SLICE_MV_COPY_CROSS_IDR_FREEZE_RES_CHANGE := 7
  VIDEO_BITSTREAM_DEFAULT := 0
  sizeofSVideoProperty := 8

/-- The concrete demuxer with the decoder that holds one picture back. -/
def lagEnv : Env (List VideoSampleInfo × List VideoSampleInfo) (Option Nat) where
  src := demoSrc
  dec := lagDec
  toUnits := fun t scale => t * scale / 1000000000

/-- A fresh session on `track` in the environment `lagEnv`, as `NewFromReadSeeker` and
`Initialize` leave it. -/
def lagSession (track : List VideoSampleInfo) :
    Mp4dec (List VideoSampleInfo × List VideoSampleInfo) (Option Nat) :=
  { mp4read := some (track, track), sampleBuffer := [], currentSample := none
    samplesinDecoder := [], Decoder := some none, DecParam := ⟨255, 7, 8, 0⟩
    DstBufInfo := SBufferInfo.zero, frameNumber := -1, seekframe := none
    num_of_frames_in_buffer := 0, openh264Initialize := true, calls := [] }

/-- A track with a single sample, numbered 0. -/
def oneTrack : List VideoSampleInfo := [⟨0, 0, 1000, 4⟩]

/-- The session of `lagEnv` on the concrete track after its first `ReadRaw`: the picture
of sample 0 has been delivered and sample 1 is in flight. -/
def lagInFlight : Mp4dec (List VideoSampleInfo × List VideoSampleInfo) (Option Nat) :=
  { lagSession demoTrack with
    mp4read := some ([⟨2, 3000, 1000, 4⟩], demoTrack)
    sampleBuffer := [0, 0, 0, 1, 1]
    currentSample := some ⟨0, 1000, 1000, 4⟩
    samplesinDecoder := [(1, ⟨1, 2000, 1000, 4⟩)]
    Decoder := some (some 1)
    DstBufInfo := { SBufferInfo.zero with IBufferStatus := 1, UiInBsTimeStamp := 1, IFormat := 23 }
    frameNumber := 1
    calls :=
      [Call.NextSample, Call.ReadMdatAtSample, Call.DecodeFrameNoDelay, Call.NextSample,
        Call.ReadMdatAtSample, Call.DecodeFrameNoDelay] }

/-- The concrete session of `demoEnv` after its first `ReadRaw`: the picture of sample 0
has been delivered. -/
def demoRead1 : Mp4dec (List VideoSampleInfo × List VideoSampleInfo) Int :=
  { demoHeld with
    seekframe := none
    calls := [Call.NextSample, Call.ReadMdatAtSample, Call.DecodeFrameNoDelay] }

section Projections

variable {σ δ : Type}

/-- The session with which a round of the sample loop ends. -/
def Step.session : Step σ δ → Mp4dec σ δ
  | .next _ v => v
  | .brk v => v
  | .ret _ _ v => v

/-- The session with which a round of the drain loop ends. -/
def Round.session : Round σ δ → Mp4dec σ δ
  | .next v => v
  | .ret _ _ v => v

end Projections

/-- The session of `lagEnv` on the single-sample track after `Seek(500)`: the picture of
sample 0, which came with the flush at the end of the stream, is held, and the session is
Exhausted. -/
def lagHeld : Mp4dec (List VideoSampleInfo × List VideoSampleInfo) (Option Nat) :=
  { lagSession oneTrack with
    mp4read := some ([], oneTrack)
    sampleBuffer := [0, 0, 0, 1, 0]
    currentSample := some ⟨0, 0, 1000, 4⟩
    DstBufInfo := { SBufferInfo.zero with IBufferStatus := 1, IFormat := 23 }
    frameNumber := 0
    seekframe := some (demoPicture 0)
    num_of_frames_in_buffer := -1
    calls :=
      [Call.srcSeek, Call.GetOption, Call.UninitializeDecoder, Call.InitializeDecoder,
        Call.GetSPSPPS, Call.DecodeFrame2, Call.NextSample, Call.ReadMdatAtSample,
        Call.DecodeFrameNoDelay, Call.NextSample, Call.SetOption, Call.GetOption,
        Call.FlushFrame] }

/-- The session `lagHeld` after `ReadRaw` has delivered the held picture. -/
def lagDelivered : Mp4dec (List VideoSampleInfo × List VideoSampleInfo) (Option Nat) :=
  { lagHeld with seekframe := none }

/-- The session `lagDelivered` after a second `Seek(500)`. -/
def lagSoughtAgain : Mp4dec (List VideoSampleInfo × List VideoSampleInfo) (Option Nat) :=
  { lagDelivered with
    mp4read := some (oneTrack, oneTrack)
    frameNumber := -1
    calls :=
      lagHeld.calls ++
        [Call.srcSeek, Call.GetOption, Call.UninitializeDecoder, Call.InitializeDecoder,
          Call.GetSPSPPS, Call.DecodeFrame2] }

/-- The fresh session of `lagEnv` on the single-sample track after the demuxer seek and
the `flush` of `Seek(500)`. -/
def lagFlushed : Mp4dec (List VideoSampleInfo × List VideoSampleInfo) (Option Nat) :=
  { lagSession oneTrack with calls := [Call.srcSeek, Call.GetOption] }

/-- The session `lagFlushed` after `decoderInit`. -/
def lagPrimed : Mp4dec (List VideoSampleInfo × List VideoSampleInfo) (Option Nat) :=
  { lagSession oneTrack with
    calls :=
      [Call.srcSeek, Call.GetOption, Call.UninitializeDecoder, Call.InitializeDecoder,
        Call.GetSPSPPS, Call.DecodeFrame2] }

section Kept

variable {σ δ : Type}

/-- The picture with which a round of the sample loop returns, if it returns one. -/
def Step.raw : Step σ δ → Option Planes
  | .ret raw _ _ => raw
  | _ => none

/-- The picture with which a round of the drain loop returns, if it returns one. -/
def Round.raw : Round σ δ → Option Planes
  | .ret raw _ _ => raw
  | _ => none

/-- Every key of the in-flight map `m` is still a key in the session `v1`, except possibly,
when a picture `raw` was delivered, the output key that the decoder reported last. -/
def Kept (m : SampleMap) (raw : Option Planes) (v1 : Mp4dec σ δ) : Prop :=
  ∀ k, m.get k ≠ none →
    v1.samplesinDecoder.get k ≠ none ∨
      (raw ≠ none ∧ k = int64 v1.DstBufInfo.UiOutYuvTimeStamp)

end Kept

/-! ## The walk of avctoAnnexB, described on the input buffer -/

/-- The big-endian number in the four bytes of `buf` at `off`; a byte past the end of the
buffer counts as 0. -/
def be32At (buf : List Byte) (off : Nat) : Nat :=
  (((buf.getD off 0).val * 256 + (buf.getD (off + 1) 0).val) * 256
    + (buf.getD (off + 2) 0).val) * 256 + (buf.getD (off + 3) 0).val

/-- The buffer with the start code `0,0,0,1` written over the four bytes at `off`. -/
def writeCode (buf : List Byte) (off : Nat) : List Byte :=
  (((buf.set off 0).set (off + 1) 0).set (off + 2) 0).set (off + 3) 1

/-- The unit offsets that the walk visits, read off the input buffer: as long as more than
four bytes remain at `off`, the four bytes there are the length, and the next unit starts
`4 + length` bytes further on.  The first argument bounds the number of units. -/
def unitOffsets (buf : List Byte) : Nat → Nat → List Nat
  | 0, _ => []
  | fuel + 1, off =>
    if off + 4 < buf.length then off :: unitOffsets buf fuel (off + (4 + be32At buf off))
    else []

/-- The offset at which the walk stops, read off the input buffer. -/
def stopOffset (buf : List Byte) : Nat → Nat → Nat
  | 0, off => off
  | fuel + 1, off =>
    if off + 4 < buf.length then stopOffset buf fuel (off + (4 + be32At buf off))
    else off

section Calls

variable {σ δ : Type}

/-- The session after `k` successive calls of `ReadRaw`, together with what each of the
calls returned. -/
def readCalls (env : Env σ δ) (fuel : Nat) :
    Nat → Mp4dec σ δ → Except Fault (List (Option Planes × Option GoError) × Mp4dec σ δ)
  | 0, v => .ok ([], v)
  | k + 1, v =>
    match ReadRaw env fuel v with
    | .error f => .error f
    | .ok (raw, err, v1) =>
      match readCalls env fuel k v1 with
      | .error f => .error f
      | .ok (rs, v2) => .ok ((raw, err) :: rs, v2)

/-- The number of `FlushFrame` calls that the session has made. -/
def Mp4dec.flushes (v : Mp4dec σ δ) : Nat := v.calls.count Call.FlushFrame

/-- The number of queries of the remaining-frame count that the session has made. -/
def Mp4dec.queries (v : Mp4dec σ δ) : Nat := v.calls.count Call.GetOption

end Calls

section DrainInvariant

variable {σ δ : Type}

/-- The number of pictures among the results of a sequence of `ReadRaw` calls. -/
def pictures (rs : List (Option Planes × Option GoError)) : Nat :=
  (rs.filter fun r => r.1.isSome).length

/-- The state of a session that drains the decoder at the end of the stream: no seek frame
is held, the demuxer is at its end, the remaining-frame count has been queried `queries`
times in all, the drain counter is positive or -1, and the flushes already made together
with those the counter still allows are `total`. -/
def Draining (AtEnd : σ → Prop) (total queries : Nat) (v : Mp4dec σ δ) : Prop :=
  v.seekframe = none ∧ (∃ m, v.mp4read = some m ∧ AtEnd m) ∧
    v.num_of_frames_in_buffer ≠ 0 ∧
    (v.num_of_frames_in_buffer.toNat = 0 → v.num_of_frames_in_buffer = -1) ∧
    v.flushes + v.num_of_frames_in_buffer.toNat = total ∧ v.queries = queries

end DrainInvariant

/-- A session of `lagEnv` in the phase Decoding whose demuxer is at its end while the
decoder still holds the picture of sample 0. -/
def lagLast : Mp4dec (List VideoSampleInfo × List VideoSampleInfo) (Option Nat) :=
  { lagSession oneTrack with
    mp4read := some ([], oneTrack)
    samplesinDecoder := [(0, ⟨0, 0, 1000, 4⟩)]
    Decoder := some (some 0) }

/-- The session `lagLast` after two calls of `ReadRaw`. -/
def lagDrained : Mp4dec (List VideoSampleInfo × List VideoSampleInfo) (Option Nat) :=
  { lagLast with
    currentSample := some ⟨0, 0, 1000, 4⟩
    samplesinDecoder := []
    Decoder := some none
    DstBufInfo := { SBufferInfo.zero with IBufferStatus := 1, IFormat := 23 }
    frameNumber := 0
    num_of_frames_in_buffer := -1
    calls := [Call.NextSample, Call.SetOption, Call.GetOption, Call.FlushFrame] }

/-! ## A gapless track and a decoder that fails on its first unit -/

/-- A gapless track of four samples with the intervals [0,1000), [1000,2000), [2000,3000)
and [3000,4000). -/
def gaplessTrack : List VideoSampleInfo :=
  [⟨0, 0, 1000, 4⟩, ⟨1, 1000, 1000, 4⟩, ⟨2, 2000, 1000, 4⟩, ⟨3, 3000, 1000, 4⟩]

/-- A decoder without reordering whose decode call for the unit with key 0 reports status 4
and no picture; every other decode call yields the picture of the unit just submitted. -/
def badFirstDec : ISVCDecoder Unit where
  WelsCreateDecoder := (0, some ())
  Initialize := fun d _ => (d, 0)
  Uninitialize := fun d => d
  DecodeFrame2 := fun d _ _ pDst info => (d, 0, pDst, info)
  DecodeFrameNoDelay := fun d _ _ pDst info =>
    if info.UiInBsTimeStamp = 0 then (d, 4, pDst, info)
    else
      (d, 0, demoPicture info.UiInBsTimeStamp,
        { info with IBufferStatus := 1, UiOutYuvTimeStamp := info.UiInBsTimeStamp, IFormat := 23 })
  FlushFrame := fun d pDst info => (d, 0, pDst, info)
  GetOption := fun d _ => (d, 0)
  SetOption := fun d _ => d
  VideoFormatI420 := 23
  ERROR_CON_SLICE_MV_COPY_CROSS_IDR_FREEZE_RES_CHANGE := 7
  VIDEO_BITSTREAM_DEFAULT := 0
  sizeofSVideoProperty := 8

/-- The concrete demuxer with the decoder that fails on its first unit. -/
def badFirstEnv : Env (List VideoSampleInfo × List VideoSampleInfo) Unit where
  src := demoSrc
  dec := badFirstDec
  toUnits := fun t scale => t * scale / 1000000000

/-- A fresh session on the gapless track in the environment `badFirstEnv`. -/
def badFirst0 : Mp4dec (List VideoSampleInfo × List VideoSampleInfo) Unit :=
  { mp4read := some (gaplessTrack, gaplessTrack), sampleBuffer := [], currentSample := none
    samplesinDecoder := [], Decoder := some (), DecParam := ⟨255, 7, 8, 0⟩
    DstBufInfo := SBufferInfo.zero, frameNumber := -1, seekframe := none
    num_of_frames_in_buffer := 0, openh264Initialize := true, calls := [] }


/-- The session `badFirst0` after its first `ReadRaw`, which returned the decode error of
sample 0: the entry of sample 0 is still in the map. -/
def badFirst1 : Mp4dec (List VideoSampleInfo × List VideoSampleInfo) Unit :=
  { badFirst0 with
    mp4read := some (gaplessTrack.drop 1, gaplessTrack)
    sampleBuffer := [0, 0, 0, 1, 0]
    samplesinDecoder := [(0, ⟨0, 0, 1000, 4⟩)]
    calls := [Call.NextSample, Call.ReadMdatAtSample, Call.DecodeFrameNoDelay] }

/-- The session `badFirst1` after the next `ReadRaw`, which returned the picture of
sample 1. -/
def badFirst2 : Mp4dec (List VideoSampleInfo × List VideoSampleInfo) Unit :=
  { badFirst1 with
    mp4read := some (gaplessTrack.drop 2, gaplessTrack)
    sampleBuffer := [0, 0, 0, 1, 1]
    currentSample := some ⟨1, 1000, 1000, 4⟩
    DstBufInfo :=
      { SBufferInfo.zero with
        IBufferStatus := 1, UiInBsTimeStamp := 1, UiOutYuvTimeStamp := 1, IFormat := 23 }
    frameNumber := 2
    calls := badFirst1.calls ++ [Call.NextSample, Call.ReadMdatAtSample, Call.DecodeFrameNoDelay] }

/-- The session `badFirst2` after the next `ReadRaw`, which returned the picture of
sample 2. -/
def badFirst3 : Mp4dec (List VideoSampleInfo × List VideoSampleInfo) Unit :=
  { badFirst2 with
    mp4read := some (gaplessTrack.drop 3, gaplessTrack)
    sampleBuffer := [0, 0, 0, 1, 2]
    currentSample := some ⟨2, 2000, 1000, 4⟩
    DstBufInfo :=
      { SBufferInfo.zero with
        IBufferStatus := 1, UiInBsTimeStamp := 2, UiOutYuvTimeStamp := 2, IFormat := 23 }
    frameNumber := 3
    calls := badFirst2.calls ++ [Call.NextSample, Call.ReadMdatAtSample, Call.DecodeFrameNoDelay] }

/-- The session `badFirst3` after the next `ReadRaw`, which returned the picture of
sample 3, the last one of the track. -/
def badFirst4 : Mp4dec (List VideoSampleInfo × List VideoSampleInfo) Unit :=
  { badFirst3 with
    mp4read := some ([], gaplessTrack)
    sampleBuffer := [0, 0, 0, 1, 3]
    currentSample := some ⟨3, 3000, 1000, 4⟩
    DstBufInfo :=
      { SBufferInfo.zero with
        IBufferStatus := 1, UiInBsTimeStamp := 3, UiOutYuvTimeStamp := 3, IFormat := 23 }
    frameNumber := 4
    calls := badFirst3.calls ++ [Call.NextSample, Call.ReadMdatAtSample, Call.DecodeFrameNoDelay] }

/-- The session `badFirst3` after `Seek` to the time 500: the picture of sample 3 is held
as the seek frame, and the demuxer was not asked to seek. -/
def badFirstSought : Mp4dec (List VideoSampleInfo × List VideoSampleInfo) Unit :=
  { badFirst4 with seekframe := some (demoPicture 3) }

/-- The session `badFirst4` after the `ReadRaw` that returned `ErrEndOfStream`. -/
def badFirstExhausted : Mp4dec (List VideoSampleInfo × List VideoSampleInfo) Unit :=
  { badFirst4 with
    num_of_frames_in_buffer := -1
    calls := badFirst4.calls ++ [Call.NextSample, Call.SetOption, Call.GetOption] }

/-! ## Theorems: avctoAnnexB -/

theorem be32_length (n : Nat) : (be32 n).length = 4 := rfl

/-- One round of the accumulation of the length in `lengthLoop`. -/
theorem lengthLoop_append (pre post : List Byte) (xs : List Byte) :
    ∀ (zs : List Byte) (length : Nat),
      lengthLoop pre.length xs.length zs.length length (pre ++ (zs ++ (xs ++ post)))
        = .ok (xs.foldl (fun l b => uint32 (uint32 (l <<< 8) + b.val)) length,
            pre ++ (zs ++ (List.replicate xs.length 0 ++ post))) := by
  induction xs with
  | nil => intro zs length; simp [lengthLoop]
  | cons x xs ih =>
    intro zs length
    have hget : (pre ++ (zs ++ (x :: xs ++ post)))[pre.length + zs.length]? = some x := by
      rw [← List.append_assoc, ← List.length_append,
        List.getElem?_append_right (Nat.le_refl _)]
      simp
    have hset : (pre ++ (zs ++ (x :: xs ++ post))).set (pre.length + zs.length) 0
        = pre ++ ((zs ++ [0]) ++ (xs ++ post)) := by
      rw [← List.append_assoc, ← List.length_append,
        List.set_append_right _ _ (Nat.le_refl _)]
      simp
    have hrec := ih (zs ++ [0]) (uint32 (uint32 (length <<< 8) + x.val))
    simp only [List.length_append, List.length_singleton] at hrec
    simp only [List.length_cons, lengthLoop, hget, hset, List.foldl_cons]
    rw [hrec]
    simp [List.replicate_succ]

/-- Reading a big-endian length field gives the encoded number, whatever value the
variable `length` had before: the four shifts push the old value out of the 32 bits. -/
theorem foldl_be32 (n length : Nat) (h : n < 2 ^ 32) :
    (be32 n).foldl (fun l b => uint32 (uint32 (l <<< 8) + b.val)) length = n := by
  simp only [be32, List.foldl_cons, List.foldl_nil, uint32, Nat.shiftLeft_eq, Fin.ofNat]
  omega

/-- The walk over a well-formed buffer, started at the boundary of a unit. -/
theorem annexbLoop_frame (ps : List (List Byte)) :
    (∀ p ∈ ps, p ≠ [] ∧ p.length < 2 ^ 32) →
    ∀ (pre : List Byte) (length fuel : Nat), (avcFrame ps).length ≤ fuel →
      annexbLoop 4 fuel pre.length length (pre ++ avcFrame ps) = .ok (pre ++ annexbFrame ps) := by
  induction ps with
  | nil =>
    intro _ pre length fuel _
    unfold annexbLoop
    simp [avcFrame, annexbFrame]
  | cons p ps ih =>
    intro hps pre length fuel hfuel
    have hp := hps p (List.mem_cons_self _ _)
    have hpl : 0 < p.length := List.length_pos.mpr hp.1
    simp only [avcFrame, List.length_append, be32_length] at hfuel
    obtain ⟨f, rfl⟩ : ∃ f, fuel = f + 1 := ⟨fuel - 1, by omega⟩
    have hloop := lengthLoop_append pre (p ++ avcFrame ps) (be32 p.length) [] length
    simp only [be32_length, List.length_nil, List.nil_append, foldl_be32 _ _ hp.2] at hloop
    have hset :
        (pre ++ (List.replicate 4 (0 : Byte) ++ (p ++ avcFrame ps))).set (pre.length + 4 - 1) 1
          = (pre ++ ([0, 0, 0, 1] ++ p)) ++ avcFrame ps := by
      rw [List.set_append_right _ _ (by omega)]
      simp [List.replicate, show pre.length + 4 - 1 - pre.length = 3 by omega]
    have hlen : pre.length + (4 + p.length) = (pre ++ ([0, 0, 0, 1] ++ p)).length := by
      simp; omega
    unfold annexbLoop
    rw [if_pos (by simp [avcFrame, be32_length]; omega)]
    simp only [avcFrame, List.append_assoc, hloop]
    rw [if_pos (by simp), hset, hlen,
      ih (fun q hq => hps q (List.mem_cons_of_mem _ hq)) _ _ _ (by omega)]
    simp [annexbFrame]

theorem annexbFrame_length (ps : List (List Byte)) :
    (annexbFrame ps).length = (avcFrame ps).length := by
  induction ps with
  | nil => rfl
  | cons p ps ih => simp [annexbFrame, avcFrame, be32_length, ih]; omega

/-- C1: for every list of non-empty payloads, each shorter than 2^32 bytes, `avctoAnnexB`
with length size 4 turns the buffer of length-prefixed payloads into a buffer of the same
length in which every length field is `0,0,0,1` and every payload is unchanged, and
returns a nil error. -/
theorem avctoAnnexB_frame (ps : List (List Byte))
    (h : ∀ p ∈ ps, p ≠ [] ∧ p.length < 2 ^ 32) :
    avctoAnnexB (avcFrame ps) 4 = .ok (annexbFrame ps, none) ∧
      (annexbFrame ps).length = (avcFrame ps).length := by
  refine ⟨?_, annexbFrame_length ps⟩
  have hwalk := annexbLoop_frame ps h [] 0 (avcFrame ps).length (Nat.le_refl _)
  simp only [List.nil_append, List.length_nil] at hwalk
  simp only [avctoAnnexB, ne_eq, not_true_eq_false, if_false]
  rw [show (4 : Int).toNat = 4 from rfl, hwalk]

/-- The fixture of the test `Test_avctoAnnexB`. -/
theorem avctoAnnexB_frame_witness :
    (∀ p ∈ [[(0 : Byte), 1], [1, 1, 1]], p ≠ [] ∧ p.length < 2 ^ 32) ∧
      avcFrame [[0, 1], [1, 1, 1]] = [0, 0, 0, 2, 0, 1, 0, 0, 0, 3, 1, 1, 1] ∧
      avctoAnnexB [0, 0, 0, 2, 0, 1, 0, 0, 0, 3, 1, 1, 1] 4
        = .ok ([0, 0, 0, 1, 0, 1, 0, 0, 0, 1, 1, 1, 1], none) :=
  ⟨by decide, by decide, (avctoAnnexB_frame [[0, 1], [1, 1, 1]] (by decide)).1⟩

/-- C2: for every buffer and every length size other than 4, `avctoAnnexB` returns a
non-nil error together with the buffer it was given, unchanged. -/
theorem avctoAnnexB_unsupported (buf : List Byte) (lengthsize : Int) (h : lengthsize ≠ 4) :
    avctoAnnexB buf lengthsize = .ok (buf, some (.notSupportLengthSize lengthsize)) := by
  simp [avctoAnnexB, h]

theorem avctoAnnexB_unsupported_witness :
    (2 : Int) ≠ 4 ∧
      avctoAnnexB [0, 2, 7, 7] 2 = .ok ([0, 2, 7, 7], some (.notSupportLengthSize 2)) :=
  ⟨by decide, avctoAnnexB_unsupported [0, 2, 7, 7] 2 (by decide)⟩

/-! ## Theorems: the shape of what `ReadRaw` returns -/

section ReturnShape

variable {σ δ : Type}

theorem avctoAnnexB_error (buf out : List Byte) (n : Int) (e : GoError)
    (h : avctoAnnexB buf n = .ok (out, some e)) : e = .notSupportLengthSize n := by
  unfold avctoAnnexB at h
  split at h
  · simp at h; exact h.2.symm
  · split at h <;> simp at h

/-- What `afterDecode` returns: a picture with the status of the decode call, or that
status as an error without a picture. -/
theorem afterDecode_ret (sample : VideoSampleInfo) (pDst : Planes) (info : SBufferInfo)
    (r : Int) (v v1 : Mp4dec σ δ) (raw : Option Planes) (err : Option GoError)
    (h : afterDecode sample pDst info (if r ≠ 0 then some (.DecodeFrameNoDelay r) else none) v
      = .ret raw err v1) :
    (raw = some pDst ∧ err = if r ≠ 0 then some (.DecodeFrameNoDelay r) else none) ∨
      (raw = none ∧ r ≠ 0 ∧ err = some (.DecodeFrameNoDelay r)) := by
  unfold afterDecode at h
  by_cases hr : r = 0 <;>
    simp only [hr, ne_eq, not_true_eq_false, not_false_eq_true, if_true, if_false] at h ⊢
  all_goals (repeat' split at h)
  all_goals simp_all

theorem decodeSample_ret (env : Env σ δ) (sample : VideoSampleInfo) (v v1 : Mp4dec σ δ)
    (raw : Option Planes) (err : Option GoError)
    (h : decodeSample env sample v = .ok (.ret raw err v1)) :
    ∃ r : Int, (raw ≠ none ∧ err = if r ≠ 0 then some (.DecodeFrameNoDelay r) else none) ∨
      (raw = none ∧ r ≠ 0 ∧ err = some (.DecodeFrameNoDelay r)) := by
  unfold decodeSample at h
  split at h
  · split at h
    · simp at h
    · split at h
      rename_i r _ _ _
      simp only [Except.ok.injEq] at h
      rcases afterDecode_ret _ _ _ _ _ _ _ _ h with h1 | h1
      · exact ⟨r, Or.inl ⟨by simp [h1.1], h1.2⟩⟩
      · exact ⟨r, Or.inr h1⟩
  · simp at h

/-- What a round of the sample loop returns. -/
theorem readStep_ret (env : Env σ δ) (sample : VideoSampleInfo) (v v1 : Mp4dec σ δ)
    (raw : Option Planes) (err : Option GoError)
    (h : readStep env sample v = .ok (.ret raw err v1)) :
    err ≠ some .ErrEndOfStream ∧ (err = none → raw ≠ none) := by
  unfold readStep at h
  repeat' split at h
  all_goals try (simp at h; done)
  · simp only [Except.ok.injEq, Step.ret.injEq] at h
    simp [← h.2.1]
  · simp only [Except.ok.injEq, Step.ret.injEq] at h
    simp [← h.2.1]
  · rename_i heq
    simp only [Except.ok.injEq, Step.ret.injEq] at h
    have := avctoAnnexB_error _ _ _ _ heq
    simp [← h.2.1, this]
  · obtain ⟨r, hr | hr⟩ := decodeSample_ret _ _ _ _ _ _ h
    · by_cases h0 : r = 0 <;> simp_all
    · simp [hr.2.2]

theorem readLoop_ret (env : Env σ δ) (fuel : Nat) :
    ∀ (sample : VideoSampleInfo) (v v1 : Mp4dec σ δ) (raw : Option Planes) (err : Option GoError),
      readLoop env fuel sample v = .ok (.ret raw err v1) →
      err ≠ some .ErrEndOfStream ∧ (err = none → raw ≠ none) := by
  induction fuel with
  | zero => intro sample v v1 raw err h; simp [readLoop] at h
  | succ n ih =>
    intro sample v v1 raw err h
    unfold readLoop at h
    split at h
    · simp at h
    · exact ih _ _ _ _ _ h
    · rename_i heq
      simp only [Except.ok.injEq] at h
      rw [h] at heq
      exact readStep_ret _ _ _ _ _ _ heq

theorem readLoop_not_next (env : Env σ δ) (fuel : Nat) :
    ∀ (sample sample1 : VideoSampleInfo) (v v1 : Mp4dec σ δ),
      readLoop env fuel sample v ≠ .ok (.next sample1 v1) := by
  induction fuel with
  | zero => intro sample sample1 v v1 h; simp [readLoop] at h
  | succ n ih =>
    intro sample sample1 v v1 h
    unfold readLoop at h
    split at h
    · simp at h
    · exact ih _ _ _ _ h
    · rename_i hne heq
      simp only [Except.ok.injEq] at h
      exact hne _ _ h
end ReturnShape

section ReturnShapeDrain

variable {σ δ : Type}

theorem afterFlush_ret (pDst : Planes) (info : SBufferInfo)
    (r : Int) (v v1 : Mp4dec σ δ) (raw : Option Planes) (err : Option GoError)
    (h : afterFlush pDst info (if r ≠ 0 then some (.FlushFrame r) else none) v
      = .ret raw err v1) :
    (raw = some pDst ∧ err = if r ≠ 0 then some (.FlushFrame r) else none) ∨
      (raw = none ∧ r ≠ 0 ∧ err = some (.FlushFrame r)) := by
  unfold afterFlush at h
  by_cases hr : r = 0 <;>
    simp only [hr, ne_eq, not_true_eq_false, not_false_eq_true, if_true, if_false] at h ⊢
  all_goals (repeat' split at h)
  all_goals simp_all

theorem drainStep_ret (env : Env σ δ) (v v1 : Mp4dec σ δ)
    (raw : Option Planes) (err : Option GoError)
    (h : drainStep env v = .ok (.ret raw err v1)) :
    err ≠ some .ErrEndOfStream ∧ (err = none → raw ≠ none) := by
  unfold drainStep at h
  split at h
  · simp at h
  · split at h
    rename_i r _ _ _
    simp only [Except.ok.injEq] at h
    rcases afterFlush_ret _ _ _ _ _ _ _ h with h1 | h1
    · by_cases h0 : r = 0 <;> simp_all
    · simp [h1.2.2, h1.1]

/-- What the drain loop returns: the end of the stream without a picture and with the
counter at -1, or the status of a flush call with or without a picture. -/
theorem drainLoop_ret (env : Env σ δ) (fuel : Nat) :
    ∀ (v v1 : Mp4dec σ δ) (raw : Option Planes) (err : Option GoError),
      drainLoop env fuel v = .ok (raw, err, v1) →
      (err = some .ErrEndOfStream → raw = none ∧ v1.num_of_frames_in_buffer = -1) ∧
        (err = none → raw ≠ none) := by
  have hlast : ∀ (v v1 : Mp4dec σ δ) (raw : Option Planes) (err : Option GoError),
      (Except.ok (none, some GoError.ErrEndOfStream, { v with num_of_frames_in_buffer := -1 })
          : Except Fault (Option Planes × Option GoError × Mp4dec σ δ)) = .ok (raw, err, v1) →
      (err = some .ErrEndOfStream → raw = none ∧ v1.num_of_frames_in_buffer = -1) ∧
        (err = none → raw ≠ none) := by
    intro v v1 raw err h
    simp only [Except.ok.injEq, Prod.mk.injEq] at h
    obtain ⟨h1, h2, h3⟩ := h
    subst h1 h2 h3
    simp
  induction fuel with
  | zero =>
    intro v v1 raw err h
    unfold drainLoop at h
    split at h
    · simp at h
    · exact hlast _ _ _ _ h
  | succ n ih =>
    intro v v1 raw err h
    unfold drainLoop at h
    split at h
    · dsimp only at h
      split at h
      · simp at h
      · exact ih _ _ _ _ h
      · rename_i heq
        simp only [Except.ok.injEq, Prod.mk.injEq] at h
        obtain ⟨h1, h2, h3⟩ := h
        subst h1 h2 h3
        have := drainStep_ret _ _ _ _ _ heq
        exact ⟨fun he => absurd he this.1, this.2⟩
    · exact hlast _ _ _ _ h

theorem drain_ret (env : Env σ δ) (v v1 : Mp4dec σ δ) (raw : Option Planes)
    (err : Option GoError) (h : drain env v = .ok (raw, err, v1)) :
    (err = some .ErrEndOfStream → raw = none ∧ v1.num_of_frames_in_buffer = -1) ∧
      (err = none → raw ≠ none) := by
  unfold drain at h
  split at h
  · split at h
    · simp at h
    · split at h
      exact drainLoop_ret _ _ _ _ _ _ h
  · exact drainLoop_ret _ _ _ _ _ _ h

/-- What `ReadRaw` returns: with `ErrEndOfStream` there is no picture and the session is
Exhausted; with a nil error there is a picture. -/
theorem ReadRaw_ret (env : Env σ δ) (fuel : Nat) (v v1 : Mp4dec σ δ) (raw : Option Planes)
    (err : Option GoError) (h : ReadRaw env fuel v = .ok (raw, err, v1)) :
    (err = some .ErrEndOfStream → raw = none ∧ v1.num_of_frames_in_buffer = -1) ∧
      (err = none → raw ≠ none) := by
  unfold ReadRaw at h
  split at h
  · simp only [Except.ok.injEq, Prod.mk.injEq] at h
    obtain ⟨h1, h2, h3⟩ := h
    subst h1 h2 h3
    simp
  · split at h
    · rename_i hnum
      simp only [Except.ok.injEq, Prod.mk.injEq] at h
      obtain ⟨h1, h2, h3⟩ := h
      subst h1 h2 h3
      simp [hnum]
    · split at h
      · simp at h
      · simp at h
      · rename_i heq
        simp only [Except.ok.injEq, Prod.mk.injEq] at h
        obtain ⟨h1, h2, h3⟩ := h
        subst h1 h2 h3
        have := readLoop_ret _ _ _ _ _ _ _ heq
        exact ⟨fun he => absurd he this.1, this.2⟩
      · exact drain_ret _ _ _ _ _ h

/-- In the phase Exhausted, without a held frame, `ReadRaw` reports the end of the stream
and leaves the session as it is. -/
theorem ReadRaw_exhausted (env : Env σ δ) (fuel : Nat) (v : Mp4dec σ δ)
    (hseek : v.seekframe = none) (hnum : v.num_of_frames_in_buffer = -1) :
    ReadRaw env fuel v = .ok (none, some .ErrEndOfStream, v) := by
  simp [ReadRaw, hseek, hnum]
end ReturnShapeDrain

/-! ## Theorems: the end of the stream is stable -/

section Exhausted

variable {σ δ : Type}

theorem flush_num (env : Env σ δ) (v v1 : Mp4dec σ δ) (h : flush env v = .ok v1) :
    v1.num_of_frames_in_buffer = v.num_of_frames_in_buffer := by
  unfold flush at h
  dsimp only at h
  split at h
  · simp at h
  · simp only [Except.ok.injEq] at h
    rw [← h]

theorem decoderInit_num (env : Env σ δ) (v v1 : Mp4dec σ δ) (e : Option GoError)
    (h : decoderInit env v = .ok (e, v1)) :
    v1.num_of_frames_in_buffer = v.num_of_frames_in_buffer := by
  unfold decoderInit at h
  split at h
  · simp at h
  · cases hi : v.openh264Initialize <;> simp only [hi, Mp4dec.log] at h
    all_goals (repeat' split at h)
    all_goals try (simp at h; done)
    all_goals (simp only [Except.ok.injEq, Prod.mk.injEq] at h; rw [← h.2])

theorem Close_num (env : Env σ δ) (v : Mp4dec σ δ) :
    (Close env v).2.num_of_frames_in_buffer = v.num_of_frames_in_buffer := by
  rcases v with ⟨m, sb, cs, sd, d, dp, db, fn, sf, nb, oi, calls⟩
  cases d <;> cases m <;> cases oi <;> simp [Close, Mp4dec.log] <;>
    split <;> simp

theorem ReadRaw_num (env : Env σ δ) (fuel : Nat) (v v1 : Mp4dec σ δ) (raw : Option Planes)
    (err : Option GoError) (hnum : v.num_of_frames_in_buffer = -1)
    (h : ReadRaw env fuel v = .ok (raw, err, v1)) : v1.num_of_frames_in_buffer = -1 := by
  cases hs : v.seekframe with
  | none =>
    rw [ReadRaw_exhausted env fuel v hs hnum] at h
    simp only [Except.ok.injEq, Prod.mk.injEq] at h
    rw [← h.2.2]; exact hnum
  | some tmp =>
    simp only [ReadRaw, hs, Except.ok.injEq, Prod.mk.injEq] at h
    rw [← h.2.2]; exact hnum

theorem Read_num (env : Env σ δ) (fuel : Nat) (v v1 : Mp4dec σ δ) (pic : Option YCbCr)
    (err : Option GoError) (hnum : v.num_of_frames_in_buffer = -1)
    (h : Read env fuel v = .ok (pic, err, v1)) : v1.num_of_frames_in_buffer = -1 := by
  unfold Read at h
  split at h
  · simp at h
  · rename_i heq
    simp only [Except.ok.injEq, Prod.mk.injEq] at h
    rw [← h.2.2]; exact ReadRaw_num _ _ _ _ _ _ hnum heq
  · rename_i heq
    have := ReadRaw_num _ _ _ _ _ _ hnum heq
    dsimp only at h
    split at h <;> simp only [Except.ok.injEq, Prod.mk.injEq] at h <;> rw [← h.2.2] <;> exact this

theorem move_num (env : Env σ δ) (timestamp : Int) (fuel : Nat) :
    ∀ (v v1 : Mp4dec σ δ) (e : Option GoError), v.num_of_frames_in_buffer = -1 →
      move env timestamp fuel v = .ok (e, v1) → v1.num_of_frames_in_buffer = -1 := by
  induction fuel with
  | zero => intro v v1 e _ h; simp [move] at h
  | succ n ih =>
    intro v v1 e hnum h
    unfold move at h
    split at h
    · simp at h
    · rename_i heq
      simp only [Except.ok.injEq, Prod.mk.injEq] at h
      rw [← h.2]; exact ReadRaw_num _ _ _ _ _ _ hnum heq
    · rename_i heq
      have h1 := ReadRaw_num _ _ _ _ _ _ hnum heq
      split at h
      · simp only [Except.ok.injEq, Prod.mk.injEq] at h
        rw [← h.2]; exact h1
      · split at h
        · simp only [Except.ok.injEq, Prod.mk.injEq] at h
          rw [← h.2]; exact h1
        · exact ih _ _ _ h1 h

theorem Seek_num (env : Env σ δ) (fuel : Nat) (timestamp : Int) (v v1 : Mp4dec σ δ)
    (e : Option GoError) (hnum : v.num_of_frames_in_buffer = -1)
    (h : Seek env fuel timestamp v = .ok (e, v1)) : v1.num_of_frames_in_buffer = -1 := by
  unfold Seek at h
  split at h
  · simp only [Except.ok.injEq, Prod.mk.injEq] at h
    rw [← h.2]; exact hnum
  · split at h
    · split at h
      · simp only [Except.ok.injEq, Prod.mk.injEq] at h
        rw [← h.2]; exact hnum
      · dsimp only at h
        split at h
        · split at h
          · simp at h
          · rename_i hflush
            split at h
            · simp at h
            · rename_i hinit
              refine move_num _ _ _ _ _ _ ?_ h
              rw [decoderInit_num _ _ _ _ hinit, flush_num _ _ _ hflush]
              exact hnum
        · exact move_num _ _ _ _ _ _ (by exact hnum) h
    · exact move_num _ _ _ _ _ _ hnum h

theorem runOp_num (env : Env σ δ) (op : Op) (v v1 : Mp4dec σ δ)
    (hnum : v.num_of_frames_in_buffer = -1) (h : runOp env op v = .ok v1) :
    v1.num_of_frames_in_buffer = -1 := by
  cases op with
  | Init =>
    simp only [runOp] at h
    cases hI : Initialize env v with
    | error f => simp [hI, Except.map] at h
    | ok r =>
      obtain ⟨e, v2⟩ := r
      simp only [hI, Except.map, Except.ok.injEq] at h
      subst h
      unfold Initialize at hI
      split at hI
      · simp at hI
      · split at hI
        · simp only [Except.ok.injEq, Prod.mk.injEq] at hI
          rw [← hI.2]; exact hnum
        · rw [decoderInit_num _ _ _ _ hI]; exact hnum
  | Seek fuel t =>
    simp only [runOp] at h
    cases hS : Seek env fuel t v with
    | error f => simp [hS, Except.map] at h
    | ok r =>
      obtain ⟨e, v2⟩ := r
      simp only [hS, Except.map, Except.ok.injEq] at h
      subst h
      exact Seek_num _ _ _ _ _ _ hnum hS
  | SeekByTime fuel t =>
    simp only [runOp] at h
    cases hS : SeekByTime env fuel t v with
    | error f => simp [hS, Except.map] at h
    | ok r =>
      obtain ⟨e, v2⟩ := r
      simp only [hS, Except.map, Except.ok.injEq] at h
      subst h
      unfold SeekByTime at hS
      split at hS
      · simp only [Except.ok.injEq, Prod.mk.injEq] at hS
        rw [← hS.2]; exact hnum
      · exact Seek_num _ _ _ _ _ _ (by exact hnum) hS
  | ReadRaw fuel =>
    simp only [runOp] at h
    cases hS : ReadRaw env fuel v with
    | error f => simp [hS, Except.map] at h
    | ok r =>
      obtain ⟨raw, e, v2⟩ := r
      simp only [hS, Except.map, Except.ok.injEq] at h
      subst h
      exact ReadRaw_num _ _ _ _ _ _ hnum hS
  | Read fuel =>
    simp only [runOp] at h
    cases hS : Read env fuel v with
    | error f => simp [hS, Except.map] at h
    | ok r =>
      obtain ⟨raw, e, v2⟩ := r
      simp only [hS, Except.map, Except.ok.injEq] at h
      subst h
      exact Read_num _ _ _ _ _ _ hnum hS
  | Close =>
    simp only [runOp, Except.ok.injEq] at h
    rw [← h, Close_num]; exact hnum

theorem runOps_num (env : Env σ δ) (ops : List Op) :
    ∀ (v v1 : Mp4dec σ δ), v.num_of_frames_in_buffer = -1 → runOps env ops v = .ok v1 →
      v1.num_of_frames_in_buffer = -1 := by
  induction ops with
  | nil =>
    intro v v1 hnum h
    simp only [runOps, Except.ok.injEq] at h
    rw [← h]; exact hnum
  | cons op ops ih =>
    intro v v1 hnum h
    unfold runOps at h
    split at h
    · simp at h
    · rename_i heq
      exact ih _ _ (runOp_num _ _ _ _ hnum heq) h

/-- C6: the end of the stream is stable.  Once `ReadRaw` has returned `ErrEndOfStream`
(which it does without a picture), then after any further calls of the methods of the
session, every `ReadRaw` that finds no held seek frame returns `(nil, ErrEndOfStream)`
again and leaves the session as it is: no field changes, and no call of the demuxer or of
the decoder is made. -/
theorem ReadRaw_end_of_stream_stable (env : Env σ δ) (fuel : Nat) (v v1 : Mp4dec σ δ)
    (raw : Option Planes) (h : ReadRaw env fuel v = .ok (raw, some .ErrEndOfStream, v1))
    (ops : List Op) (v2 : Mp4dec σ δ) (hops : runOps env ops v1 = .ok v2)
    (hseek : v2.seekframe = none) (fuel2 : Nat) :
    raw = none ∧ ReadRaw env fuel2 v2 = .ok (none, some .ErrEndOfStream, v2) := by
  have h1 := (ReadRaw_ret env fuel v v1 raw _ h).1 rfl
  exact ⟨h1.1, ReadRaw_exhausted env fuel2 v2 hseek (runOps_num env ops v1 v2 h1.2 hops)⟩
end Exhausted

/-! ## Theorems: seeking -/

section Seeking

variable {σ δ : Type}

/-- A forward scan that returns a nil error holds a frame, and the interval of the current
sample ends after the target time. -/
theorem move_ok (env : Env σ δ) (timestamp : Int) (fuel : Nat) :
    ∀ (v v1 : Mp4dec σ δ), move env timestamp fuel v = .ok (none, v1) →
      ∃ raw cur, v1.seekframe = some raw ∧ v1.currentSample = some cur ∧
        timestamp < int64 (cur.CompositionTime + int64 cur.TimeDelta) := by
  induction fuel with
  | zero => intro v v1 h; simp [move] at h
  | succ n ih =>
    intro v v1 h
    unfold move at h
    split at h
    · simp at h
    · simp at h
    · rename_i raw v2 heq
      have hraw := (ReadRaw_ret _ _ _ _ _ _ heq).2 rfl
      split at h
      · simp at h
      · rename_i cur hcur
        split at h
        · rename_i hlt
          simp only [Except.ok.injEq, Prod.mk.injEq, true_and] at h
          obtain ⟨p, hp⟩ := Option.ne_none_iff_exists'.mp hraw
          refine ⟨p, cur, ?_, ?_, hlt⟩
          · rw [← h]; exact hp
          · rw [← h]; exact hcur
        · exact ih _ _ h

theorem Seek_ok (env : Env σ δ) (fuel : Nat) (timestamp : Int) (v v1 : Mp4dec σ δ)
    (h : Seek env fuel timestamp v = .ok (none, v1)) :
    ∃ raw cur, v1.seekframe = some raw ∧ v1.currentSample = some cur ∧
      timestamp < int64 (cur.CompositionTime + int64 cur.TimeDelta) := by
  unfold Seek at h
  split at h
  · simp at h
  · split at h
    · split at h
      · simp at h
      · dsimp only at h
        split at h
        · split at h
          · simp at h
          · split at h
            · simp at h
            · exact move_ok _ _ _ _ _ h
        · exact move_ok _ _ _ _ _ h
    · exact move_ok _ _ _ _ _ h

/-- What `Seek` itself establishes when it returns nil: a seek frame is held, there is a
current sample, `move` has stopped at a sample whose interval ends after `t`
(`t < CurrentCompositionTime() + CurrentTimeDelta()` in `int64` arithmetic), and the next
`ReadRaw` returns exactly the held frame with a nil error and leaves the current sample
unchanged.  That the interval also begins at or before `t` is left to the place where the
scan starts: the demuxer's seek, or the in-flight test that skips it. -/
theorem Seek_holds_frame (env : Env σ δ) (fuel : Nat) (t : Int) (v v1 : Mp4dec σ δ)
    (h : Seek env fuel t v = .ok (none, v1)) :
    ∃ raw, v1.seekframe = some raw ∧ v1.currentSample ≠ none ∧
      t < int64 (CurrentCompositionTime v1 + CurrentTimeDelta v1) ∧
      ∀ fuel2, ∃ v2, ReadRaw env fuel2 v1 = .ok (some raw, none, v2) ∧
        v2.currentSample = v1.currentSample := by
  obtain ⟨raw, cur, hraw, hcur, hlt⟩ := Seek_ok env fuel t v v1 h
  refine ⟨raw, hraw, by simp [hcur], ?_, fun fuel2 => ⟨{ v1 with seekframe := none }, ?_, rfl⟩⟩
  · simpa [CurrentCompositionTime, CurrentTimeDelta, hcur] using hlt
  · simp [ReadRaw, hraw]
end Seeking

/-! ## Theorems: matching a decoded picture to its sample -/

section InFlight

variable {σ δ : Type}

theorem SampleMap.get_delete_self (m : SampleMap) (k : Int) : (m.delete k).get k = none := by
  induction m with
  | nil => rfl
  | cons e rest ih =>
    obtain ⟨j, x⟩ := e
    by_cases hj : j = k
    · simpa [SampleMap.delete, List.filter_cons, hj] using ih
    · simp only [SampleMap.delete, List.filter_cons, hj, ne_eq, not_false_eq_true, decide_True,
        if_true, SampleMap.get, if_false]
      exact ih

theorem SampleMap.get_delete_ne (m : SampleMap) (k i : Int) (h : i ≠ k) :
    (m.delete k).get i = m.get i := by
  induction m with
  | nil => rfl
  | cons e rest ih =>
    obtain ⟨j, x⟩ := e
    have ih' : SampleMap.get (List.filter (fun e => decide (e.1 ≠ k)) rest) i
        = SampleMap.get rest i := ih
    by_cases hj : j = k
    · have hji : ¬ j = i := fun hji => h (hji ▸ hj)
      simp only [SampleMap.delete, List.filter_cons, hj, ne_eq, not_true_eq_false, decide_False,
        SampleMap.get]
      rw [if_neg (by simp), if_neg (hj ▸ hji)]
      simpa using ih'
    · simp only [SampleMap.delete, List.filter_cons, hj, ne_eq, not_false_eq_true, decide_True,
        if_true, SampleMap.get]
      by_cases hji : j = i
      · simp [hji]
      · simpa [hji] using ih'

theorem SampleMap.get_put_self (m : SampleMap) (k : Int) (x : VideoSampleInfo) :
    (m.put k x).get k = some x := by
  simp [SampleMap.put, SampleMap.get]

theorem SampleMap.get_put_ne (m : SampleMap) (k i : Int) (x : VideoSampleInfo) (h : i ≠ k) :
    (m.put k x).get i = m.get i := by
  simp only [SampleMap.put, SampleMap.get, Ne.symm h, if_false]
  exact SampleMap.get_delete_ne m k i h

/-- Rounds of the sample loop that end with `continue` only use up fuel. -/
theorem readLoop_rounds (env : Env σ δ) (j : Nat) :
    ∀ (n : Nat) (sample0 sample : VideoSampleInfo) (v0 v : Mp4dec σ δ),
      roundsNext env j sample0 v0 = some (sample, v) →
      readLoop env (j + n) sample0 v0 = readLoop env n sample v := by
  induction j with
  | zero =>
    intro n sample0 sample v0 v h
    simp only [roundsNext, Option.some.injEq, Prod.mk.injEq] at h
    rw [h.1, h.2, Nat.zero_add]
  | succ j ih =>
    intro n sample0 sample v0 v h
    unfold roundsNext at h
    split at h
    · rename_i heq
      rw [show j + 1 + n = (j + n) + 1 by omega, readLoop, heq]
      exact ih _ _ _ _ _ h
    · simp at h
end InFlight

section InFlightMatch

variable {σ δ : Type}

/-- A round of the sample loop in which the demuxer gives a sample with a non-empty
payload: the sample is registered and the decoder is called. -/
theorem readStep_decode (env : Env σ δ) (v : Mp4dec σ δ) (sample0 sample : VideoSampleInfo)
    (m m1 m2 : σ) (d d1 : δ) (avc annexb : List Byte) (r : Int) (pDst : Planes)
    (info : SBufferInfo)
    (hm : v.mp4read = some m) (hd : v.Decoder = some d)
    (hnext : env.src.NextSample m sample0 = (m1, sample, none))
    (hread : env.src.ReadMdatAtSample m1 sample v.sampleBuffer = (m2, avc, none))
    (hframe : avctoAnnexB avc sample.NalLengthSize = .ok (annexb, none))
    (hlen : 0 < annexb.length)
    (hdec : env.dec.DecodeFrameNoDelay d annexb annexb.length Planes.zero
      { SBufferInfo.zero with UiInBsTimeStamp := uint64 sample.Number } = (d1, r, pDst, info)) :
    readStep env sample0 v = .ok (afterDecode sample pDst info
      (if r ≠ 0 then some (.DecodeFrameNoDelay r) else none)
      { v with
        mp4read := some m2
        sampleBuffer := annexb
        samplesinDecoder := v.samplesinDecoder.put sample.Number sample
        Decoder := some d1
        DstBufInfo := info
        calls := v.calls ++ [Call.NextSample] ++ [Call.ReadMdatAtSample]
          ++ [Call.DecodeFrameNoDelay] }) := by
  simp only [readStep, hm, hnext, hread, hframe, decodeSample, Mp4dec.log, hlen, gt_iff_lt,
    if_true, hd, hdec]

/-- A round of the sample loop that ends with a `return` ends `ReadRaw`. -/
theorem ReadRaw_of_round (env : Env σ δ) (j fuel : Nat) (v0 v v1 : Mp4dec σ δ)
    (sample0 : VideoSampleInfo) (raw : Option Planes) (err : Option GoError)
    (hseek : v0.seekframe = none) (hphase : v0.num_of_frames_in_buffer ≠ -1)
    (hrounds : roundsNext env j VideoSampleInfo.zero v0 = some (sample0, v))
    (hstep : readStep env sample0 v = .ok (.ret raw err v1)) :
    ReadRaw env (j + (fuel + 1)) v0 = .ok (raw, err, v1) := by
  have hloop := readLoop_rounds env j (fuel + 1) _ _ _ _ hrounds
  rw [ReadRaw]
  simp only [hseek, hphase, if_false]
  rw [hloop, readLoop, hstep]

/-- The bookkeeping of `afterDecode` for a ready picture. -/
theorem afterDecode_ready (sample : VideoSampleInfo) (pDst : Planes) (info : SBufferInfo)
    (err : Option GoError) (v : Mp4dec σ δ)
    (hpic : pDst.plane0 ≠ none) (hstatus : info.IBufferStatus = 1) :
    ∃ v1, afterDecode sample pDst info err v = .ret (some pDst) err v1 ∧
      (∀ x, v.samplesinDecoder.get (int64 info.UiOutYuvTimeStamp) = some x →
        v1.currentSample = some x ∧
        v1.samplesinDecoder = v.samplesinDecoder.delete (int64 info.UiOutYuvTimeStamp)) ∧
      (v.samplesinDecoder.get (int64 info.UiOutYuvTimeStamp) = none →
        v1.currentSample = none ∧ v1.samplesinDecoder = v.samplesinDecoder) := by
  rw [afterDecode, if_pos ⟨hpic, hstatus⟩]
  dsimp only
  cases hget : v.samplesinDecoder.get (int64 info.UiOutYuvTimeStamp) with
  | none => exact ⟨_, rfl, fun x hx => by simp at hx, fun _ => ⟨rfl, rfl⟩⟩
  | some x =>
    refine ⟨_, rfl, fun y hy => ?_, fun hx => by simp at hx⟩
    simp only [Option.some.injEq] at hy
    subst hy
    exact ⟨rfl, rfl⟩

/-- C4: when a decode call inside `ReadRaw` (after any number `j` of earlier rounds of the
sample loop) reports a ready picture with output key `k`, `ReadRaw` returns that picture
together with the status of the decode call.  If `k` is in the in-flight map, in which the
submitted sample has just been registered, then the current sample becomes the sample
registered under `k`, the entry `k` is removed and every other entry stays; if `k` is not
in the map, nothing is removed and there is no current sample.  A picture whose key is the
number of the submitted sample always hits, and a picture with another key leaves the
submitted sample in the map. -/
theorem ReadRaw_decode_match (env : Env σ δ) (j fuel : Nat) (v0 v : Mp4dec σ δ)
    (sample0 sample : VideoSampleInfo) (m m1 m2 : σ) (d d1 : δ) (avc annexb : List Byte)
    (r : Int) (pDst : Planes) (info : SBufferInfo)
    (hseek : v0.seekframe = none) (hphase : v0.num_of_frames_in_buffer ≠ -1)
    (hrounds : roundsNext env j VideoSampleInfo.zero v0 = some (sample0, v))
    (hm : v.mp4read = some m) (hd : v.Decoder = some d)
    (hnext : env.src.NextSample m sample0 = (m1, sample, none))
    (hread : env.src.ReadMdatAtSample m1 sample v.sampleBuffer = (m2, avc, none))
    (hframe : avctoAnnexB avc sample.NalLengthSize = .ok (annexb, none))
    (hlen : 0 < annexb.length)
    (hdec : env.dec.DecodeFrameNoDelay d annexb annexb.length Planes.zero
      { SBufferInfo.zero with UiInBsTimeStamp := uint64 sample.Number } = (d1, r, pDst, info))
    (hpic : pDst.plane0 ≠ none) (hstatus : info.IBufferStatus = 1) :
    ∃ v1, ReadRaw env (j + (fuel + 1)) v0
        = .ok (some pDst, (if r ≠ 0 then some (.DecodeFrameNoDelay r) else none), v1) ∧
      (∀ x, (v.samplesinDecoder.put sample.Number sample).get (int64 info.UiOutYuvTimeStamp)
          = some x →
        v1.currentSample = some x ∧
        v1.samplesinDecoder
          = (v.samplesinDecoder.put sample.Number sample).delete (int64 info.UiOutYuvTimeStamp) ∧
        v1.samplesinDecoder.get (int64 info.UiOutYuvTimeStamp) = none ∧
        ∀ i, i ≠ int64 info.UiOutYuvTimeStamp →
          v1.samplesinDecoder.get i = (v.samplesinDecoder.put sample.Number sample).get i) ∧
      ((v.samplesinDecoder.put sample.Number sample).get (int64 info.UiOutYuvTimeStamp) = none →
        v1.currentSample = none ∧ CurrentCompositionTime v1 = -1 ∧
        v1.samplesinDecoder = v.samplesinDecoder.put sample.Number sample) ∧
      (int64 info.UiOutYuvTimeStamp = sample.Number → v1.currentSample = some sample) ∧
      (int64 info.UiOutYuvTimeStamp ≠ sample.Number →
        v1.samplesinDecoder.get sample.Number = some sample) := by
  have hstep := readStep_decode env v sample0 sample m m1 m2 d d1 avc annexb r pDst info
    hm hd hnext hread hframe hlen hdec
  obtain ⟨v1, hret, hhit, hmiss⟩ := afterDecode_ready sample pDst info
    (if r ≠ 0 then some (.DecodeFrameNoDelay r) else none)
    { v with
      mp4read := some m2
      sampleBuffer := annexb
      samplesinDecoder := v.samplesinDecoder.put sample.Number sample
      Decoder := some d1
      DstBufInfo := info
      calls := v.calls ++ [Call.NextSample] ++ [Call.ReadMdatAtSample]
        ++ [Call.DecodeFrameNoDelay] } hpic hstatus
  rw [hret] at hstep
  simp only at hhit hmiss
  refine ⟨v1, ReadRaw_of_round env j fuel v0 v v1 sample0 _ _ hseek hphase hrounds hstep,
    ?_, ?_, ?_, ?_⟩
  · intro x hx
    obtain ⟨h1, h2⟩ := hhit x hx
    refine ⟨h1, h2, ?_, fun i hi => ?_⟩
    · rw [h2]; exact SampleMap.get_delete_self _ _
    · rw [h2]; exact SampleMap.get_delete_ne _ _ _ hi
  · intro hx
    obtain ⟨h1, h2⟩ := hmiss hx
    exact ⟨h1, by simp [CurrentCompositionTime, h1], h2⟩
  · intro hk
    have hx := SampleMap.get_put_self v.samplesinDecoder sample.Number sample
    rw [← hk] at hx
    exact (hhit sample (hk ▸ hx)).1
  · intro hk
    have hput := SampleMap.get_put_self v.samplesinDecoder sample.Number sample
    cases hget : (v.samplesinDecoder.put sample.Number sample).get
        (int64 info.UiOutYuvTimeStamp) with
    | none => rw [(hmiss hget).2]; exact hput
    | some x =>
      rw [(hhit x hget).2, SampleMap.get_delete_ne _ _ _ (Ne.symm hk)]
      exact hput
end InFlightMatch

/-! ## Theorems: the claims on concrete sessions, held frames and Close -/

section Claims

variable {σ δ : Type}

theorem ReadRaw_decode_match_witness :
    ∃ v1, ReadRaw demoEnv (0 + (0 + 1)) (demoSession 0)
        = .ok (some (demoPicture 0),
            (if (0 : Int) ≠ 0 then some (.DecodeFrameNoDelay 0) else none), v1) ∧
      (∀ x, (SampleMap.put [] 0 ⟨0, 1000, 1000, 4⟩).get (int64 (0 : Nat)) = some x →
        v1.currentSample = some x ∧
        v1.samplesinDecoder = (SampleMap.put [] 0 ⟨0, 1000, 1000, 4⟩).delete (int64 (0 : Nat)) ∧
        v1.samplesinDecoder.get (int64 (0 : Nat)) = none ∧
        ∀ i, i ≠ int64 (0 : Nat) →
          v1.samplesinDecoder.get i = (SampleMap.put [] 0 ⟨0, 1000, 1000, 4⟩).get i) ∧
      ((SampleMap.put [] 0 ⟨0, 1000, 1000, 4⟩).get (int64 (0 : Nat)) = none →
        v1.currentSample = none ∧ CurrentCompositionTime v1 = -1 ∧
        v1.samplesinDecoder = SampleMap.put [] 0 ⟨0, 1000, 1000, 4⟩) ∧
      (int64 (0 : Nat) = 0 → v1.currentSample = some ⟨0, 1000, 1000, 4⟩) ∧
      (int64 (0 : Nat) ≠ 0 → v1.samplesinDecoder.get 0 = some ⟨0, 1000, 1000, 4⟩) :=
  ReadRaw_decode_match demoEnv 0 0 (demoSession 0) (demoSession 0) VideoSampleInfo.zero
    ⟨0, 1000, 1000, 4⟩ (demoTrack, demoTrack) (demoTrack.tail, demoTrack)
    (demoTrack.tail, demoTrack) 0 0 [0, 0, 0, 1, 0] [0, 0, 0, 1, 0] 0 (demoPicture 0)
    { SBufferInfo.zero with IBufferStatus := 1, IFormat := 23 }
    (by decide) (by decide) (by decide) (by decide) (by decide) (by decide) (by decide)
    (by decide) (by decide) (by decide) (by decide) (by decide)

/-- C5: in every session state that holds a seek frame, whatever the phase, `ReadRaw`
returns exactly that frame with a nil error; the session afterwards differs from the
session before only in that the held frame is cleared: the in-flight map, the current
sample, the frame counter, the drain counter, the states of the demuxer and of the decoder
and the record of calls (so no call was made) are as before. -/
theorem ReadRaw_seekframe (env : Env σ δ) (fuel : Nat) (v : Mp4dec σ δ) (tmp : Planes)
    (h : v.seekframe = some tmp) :
    ReadRaw env fuel v = .ok (some tmp, none, { v with seekframe := none }) := by
  simp [ReadRaw, h]

theorem ReadRaw_seekframe_witness :
    demoHeldExhausted.seekframe = some (demoPicture 0) ∧
      demoHeldExhausted.num_of_frames_in_buffer = -1 ∧
      ReadRaw demoEnv 0 demoHeldExhausted
        = .ok (some (demoPicture 0), none, { demoHeldExhausted with seekframe := none }) :=
  ⟨by decide, by decide, ReadRaw_seekframe demoEnv 0 demoHeldExhausted (demoPicture 0) (by decide)⟩

theorem ReadRaw_end_of_stream_stable_witness :
    ReadRaw demoEnv 3 demoAtEnd = .ok (none, some .ErrEndOfStream, demoExhausted) ∧
      runOps demoEnv [Op.Seek 5 0] demoExhausted = .ok demoExhaustedSought ∧
      demoExhaustedSought.seekframe = none ∧
      ((none : Option Planes) = none ∧
        ReadRaw demoEnv 7 demoExhaustedSought
          = .ok (none, some .ErrEndOfStream, demoExhaustedSought)) :=
  ⟨by decide, by decide, by decide,
    ReadRaw_end_of_stream_stable demoEnv 3 demoAtEnd demoExhausted none (by decide)
      [Op.Seek 5 0] demoExhaustedSought (by decide) (by decide) 7⟩

/-- C7 (the code at the failing input): `flush` leaves the drain counter of an Exhausted
session at -1, so a `Seek` that induces a discontinuity and resets the session returns
`ErrEndOfStream` from its first `ReadRaw`, without pulling any sample from the demuxer
(the record of calls has no `NextSample` after the seek), and the session is still
Exhausted afterwards. -/
theorem Seek_after_exhausted :
    demoSrc.Seek ([], demoTrack) 0 false = ((demoTrack, demoTrack), true, none) ∧
      (flush demoEnv demoExhausted).map (fun v => v.num_of_frames_in_buffer) = .ok (-1) ∧
      Seek demoEnv 5 0 demoExhausted = .ok (some .ErrEndOfStream, demoExhaustedSought) ∧
      demoExhaustedSought.num_of_frames_in_buffer = -1 ∧
      ReadRaw demoEnv 5 demoExhaustedSought
        = .ok (none, some .ErrEndOfStream, demoExhaustedSought) := by
  decide

/-- C8 (the code at the failing input): after `Close` of a session that holds a seek
frame, `ReadRaw` returns the held picture with a nil error, and `Read` returns it wrapped
with a nil error. -/
theorem ReadRaw_after_Close :
    (Close demoEnv demoHeld).1 = none ∧
      (Close demoEnv demoHeld).2.mp4read = none ∧
      (Close demoEnv demoHeld).2.Decoder = none ∧
      (ReadRaw demoEnv 1 (Close demoEnv demoHeld).2).map (fun r => (r.1, r.2.1))
        = .ok (some (demoPicture 0), none) ∧
      (Read demoEnv 1 (Close demoEnv demoHeld).2).map (fun r => (r.1.isSome, r.2.1))
        = .ok (true, none) := by
  decide

theorem Close_fields (env : Env σ δ) (v : Mp4dec σ δ) :
    (Close env v).2.Decoder = none ∧ (Close env v).2.mp4read = none := by
  rcases v with ⟨m, sb, cs, sd, d, dp, db, fn, sf, nb, oi, calls⟩
  cases d <;> cases m <;> cases oi <;> simp [Close, Mp4dec.log] <;>
    split <;> simp

theorem Close_closed (env : Env σ δ) (v : Mp4dec σ δ) (hd : v.Decoder = none)
    (hm : v.mp4read = none) : Close env v = (none, v) := by
  simp [Close, hd, hm]

/-- C9: `Close` is idempotent.  For every session state, a second `Close` directly after a
first one returns nil and leaves the session exactly as the first one left it: no field
changes, and the record of calls does not grow, so neither the decoder nor the demuxer is
called again. -/
theorem Close_idempotent (env : Env σ δ) (v : Mp4dec σ δ) :
    Close env (Close env v).2 = (none, (Close env v).2) :=
  Close_closed env _ (Close_fields env v).1 (Close_fields env v).2

/-- C10 (the code at the failing input): the demuxer reports a discontinuity, the priming
call of the decoder re-initialization after the reset reports status 4, so `decoderInit`
returns an error, and `Seek` returns nil all the same. -/
theorem Seek_swallows_decoderInit_error :
    demoSrc.Seek (demoTrack, demoTrack) 1500 false = ((demoTrack, demoTrack), true, none) ∧
      ((flush demoEnv (demoSought 4)).bind (decoderInit demoEnv)).map (fun r => r.1)
        = .ok (some (.DecodeFrame2 4)) ∧
      (Seek demoEnv 5 1500 (demoSession 4)).map (fun r => r.1) = .ok none := by
  decide
end Claims

/-! ## Theorems: pictures and errors, and the in-flight test of Seek -/

section PictureOrError

variable {σ δ : Type}

/-- C19: `ReadRaw` and `Read` never return a nil picture together with a nil error.  For
every session state and every demuxer and decoder, whenever the call returns, a nil error
comes with a non-nil picture, and `ErrEndOfStream` comes with a nil picture. -/
theorem ReadRaw_Read_picture_or_error (env : Env σ δ) (fuel : Nat) (v : Mp4dec σ δ) :
    (∀ raw err v1, ReadRaw env fuel v = .ok (raw, err, v1) →
      (err = none → raw ≠ none) ∧ (err = some .ErrEndOfStream → raw = none)) ∧
    (∀ pic err v1, Read env fuel v = .ok (pic, err, v1) →
      (err = none → pic ≠ none) ∧ (err = some .ErrEndOfStream → pic = none)) := by
  refine ⟨fun raw err v1 h => ?_, fun pic err v1 h => ?_⟩
  · have hr := ReadRaw_ret env fuel v v1 raw err h
    exact ⟨hr.2, fun he => (hr.1 he).1⟩
  · unfold Read at h
    split at h
    · simp at h
    · rename_i err0 v0 heq
      have hr := ReadRaw_ret env fuel v v0 none err0 heq
      simp only [Except.ok.injEq, Prod.mk.injEq] at h
      obtain ⟨h1, h2, _⟩ := h
      subst h1 h2
      exact ⟨fun he => absurd rfl (hr.2 he), fun _ => rfl⟩
    · rename_i buf err0 v0 heq
      have hr := ReadRaw_ret env fuel v v0 (some buf) err0 heq
      dsimp only at h
      split at h
      · simp only [Except.ok.injEq, Prod.mk.injEq] at h
        obtain ⟨h1, h2, _⟩ := h
        subst h1 h2
        exact ⟨fun he => by simp at he, fun _ => rfl⟩
      · simp only [Except.ok.injEq, Prod.mk.injEq] at h
        obtain ⟨h1, h2, _⟩ := h
        subst h1 h2
        refine ⟨fun _ => by simp, fun he => ?_⟩
        have := (hr.1 he).1
        simp at this

theorem ReadRaw_Read_picture_or_error_witness :
    ((∀ raw err v1, ReadRaw demoEnv 3 (demoSession 0) = .ok (raw, err, v1) →
      (err = none → raw ≠ none) ∧ (err = some .ErrEndOfStream → raw = none)) ∧
    (∀ pic err v1, Read demoEnv 3 (demoSession 0) = .ok (pic, err, v1) →
      (err = none → pic ≠ none) ∧ (err = some .ErrEndOfStream → pic = none))) ∧
    (ReadRaw demoEnv 3 (demoSession 0)).map (fun r => (r.1, r.2.1))
      = .ok (some (demoPicture 0), none) ∧
    (Read demoEnv 3 demoExhausted).map (fun r => (r.1, r.2.1))
      = .ok (none, some .ErrEndOfStream) :=
  ⟨ReadRaw_Read_picture_or_error demoEnv 3 (demoSession 0), by decide, by decide⟩

/-- The test of `inDecoder` in terms of the entries of the in-flight map. -/
theorem inDecoder_iff (v : Mp4dec σ δ) (t : Int) :
    inDecoder v t = true ↔
      ∃ e ∈ v.samplesinDecoder, e.2.CompositionTime ≤ t ∧
        t < int64 (e.2.CompositionTime + int64 e.2.TimeDelta) := by
  simp [inDecoder, List.any_eq_true]

/-- C18: `inDecoder(t)` is true exactly when some in-flight sample `s` has
`s.CompositionTime <= t < s.CompositionTime + int64(s.TimeDelta)` (the `int64` sum of the
code), and in that case `Seek(t)` on a session that is not closed is the forward scan
`move(t)` run on the session as it is: no demuxer seek, no flush and no decoder
re-initialization comes before it.  (On a closed session the guard at the head of `Seek`
returns its error and leaves the session as it is.) -/
theorem Seek_inDecoder (env : Env σ δ) (fuel : Nat) (t : Int) (v : Mp4dec σ δ) :
    (inDecoder v t = true ↔
      ∃ e ∈ v.samplesinDecoder, e.2.CompositionTime ≤ t ∧
        t < int64 (e.2.CompositionTime + int64 e.2.TimeDelta)) ∧
    (inDecoder v t = true → v.mp4read ≠ none → Seek env fuel t v = move env t fuel v) ∧
    (v.mp4read = none → Seek env fuel t v = .ok (some .videoNotFound, v)) := by
  refine ⟨inDecoder_iff v t, fun hin hm => ?_, fun hm => ?_⟩
  · obtain ⟨m, hm⟩ := Option.ne_none_iff_exists'.mp hm
    simp [Seek, hm, hin]
  · simp [Seek, hm]
end PictureOrError

/-! ## Theorems: no frame is held after ReadRaw -/

section HeldFrame

variable {σ δ : Type}

theorem Seek_inDecoder_witness :
    lagInFlight.mp4read ≠ none ∧ inDecoder lagInFlight 2500 = true ∧
      ReadRaw lagEnv 9 (lagSession demoTrack) = .ok (some (demoPicture 0), none, lagInFlight) ∧
      Seek lagEnv 9 2500 lagInFlight = move lagEnv 2500 9 lagInFlight :=
  ⟨by decide, by decide, rfl,
    (Seek_inDecoder lagEnv 9 2500 lagInFlight).2.1 (by decide) (by decide)⟩

theorem afterDecode_seekframe (sample : VideoSampleInfo) (pDst : Planes) (info : SBufferInfo)
    (err : Option GoError) (v : Mp4dec σ δ) :
    (afterDecode sample pDst info err v).session.seekframe = v.seekframe := by
  unfold afterDecode
  split
  · dsimp only
    split <;> rfl
  · split <;> rfl

theorem decodeSample_seekframe (env : Env σ δ) (sample : VideoSampleInfo) (v : Mp4dec σ δ)
    (st : Step σ δ) (h : decodeSample env sample v = .ok st) :
    st.session.seekframe = v.seekframe := by
  unfold decodeSample at h
  split at h
  · split at h
    · simp at h
    · split at h
      simp only [Except.ok.injEq] at h
      rw [← h, afterDecode_seekframe]
      rfl
  · simp only [Except.ok.injEq] at h
    rw [← h]; rfl

theorem readStep_seekframe (env : Env σ δ) (sample : VideoSampleInfo) (v : Mp4dec σ δ)
    (st : Step σ δ) (h : readStep env sample v = .ok st) :
    st.session.seekframe = v.seekframe := by
  unfold readStep at h
  repeat' split at h
  all_goals try (simp at h; done)
  all_goals try (simp only [Except.ok.injEq] at h; rw [← h]; rfl)
  rw [decodeSample_seekframe _ _ _ _ h]
  rfl

theorem readLoop_seekframe (env : Env σ δ) (fuel : Nat) :
    ∀ (sample : VideoSampleInfo) (v : Mp4dec σ δ) (st : Step σ δ),
      readLoop env fuel sample v = .ok st → st.session.seekframe = v.seekframe := by
  induction fuel with
  | zero => intro sample v st h; simp [readLoop] at h
  | succ n ih =>
    intro sample v st h
    unfold readLoop at h
    split at h
    · simp at h
    · rename_i heq
      rw [ih _ _ _ h]
      exact readStep_seekframe _ _ _ _ heq
    · rename_i heq
      simp only [Except.ok.injEq] at h
      rw [← h]
      exact readStep_seekframe _ _ _ _ heq

theorem afterFlush_seekframe (pDst : Planes) (info : SBufferInfo)
    (err : Option GoError) (v : Mp4dec σ δ) :
    (afterFlush pDst info err v).session.seekframe = v.seekframe := by
  unfold afterFlush
  split
  · dsimp only
    split <;> rfl
  · split <;> rfl

theorem drainStep_seekframe (env : Env σ δ) (v : Mp4dec σ δ) (st : Round σ δ)
    (h : drainStep env v = .ok st) : st.session.seekframe = v.seekframe := by
  unfold drainStep at h
  split at h
  · simp at h
  · split at h
    simp only [Except.ok.injEq] at h
    rw [← h, afterFlush_seekframe]
    rfl

theorem drainLoop_seekframe (env : Env σ δ) (fuel : Nat) :
    ∀ (v v1 : Mp4dec σ δ) (raw : Option Planes) (err : Option GoError),
      drainLoop env fuel v = .ok (raw, err, v1) → v1.seekframe = v.seekframe := by
  induction fuel with
  | zero =>
    intro v v1 raw err h
    unfold drainLoop at h
    split at h
    · simp at h
    · simp only [Except.ok.injEq, Prod.mk.injEq] at h
      rw [← h.2.2]
  | succ n ih =>
    intro v v1 raw err h
    unfold drainLoop at h
    split at h
    · dsimp only at h
      split at h
      · simp at h
      · rename_i heq
        rw [ih _ _ _ _ h]
        exact drainStep_seekframe _ _ _ heq
      · rename_i heq
        simp only [Except.ok.injEq, Prod.mk.injEq] at h
        rw [← h.2.2]
        exact drainStep_seekframe _ _ _ heq
    · simp only [Except.ok.injEq, Prod.mk.injEq] at h
      rw [← h.2.2]

theorem drain_seekframe (env : Env σ δ) (v v1 : Mp4dec σ δ) (raw : Option Planes)
    (err : Option GoError) (h : drain env v = .ok (raw, err, v1)) :
    v1.seekframe = v.seekframe := by
  unfold drain at h
  split at h
  · split at h
    · simp at h
    · split at h
      rw [drainLoop_seekframe _ _ _ _ _ _ h]
  · exact drainLoop_seekframe _ _ _ _ _ _ h

/-- After `ReadRaw` has returned, no seek frame is held. -/
theorem ReadRaw_clears_seekframe (env : Env σ δ) (fuel : Nat) (v v1 : Mp4dec σ δ)
    (raw : Option Planes) (err : Option GoError)
    (h : ReadRaw env fuel v = .ok (raw, err, v1)) : v1.seekframe = none := by
  unfold ReadRaw at h
  split at h
  · simp only [Except.ok.injEq, Prod.mk.injEq] at h
    rw [← h.2.2]
  · rename_i hs
    split at h
    · simp only [Except.ok.injEq, Prod.mk.injEq] at h
      rw [← h.2.2]; exact hs
    · split at h
      · simp at h
      · simp at h
      · rename_i heq
        simp only [Except.ok.injEq, Prod.mk.injEq] at h
        rw [← h.2.2, ← hs]
        exact readLoop_seekframe _ _ _ _ _ heq
      · rename_i heq
        rw [drain_seekframe _ _ _ _ _ h, ← hs]
        exact readLoop_seekframe _ _ _ _ _ heq
end HeldFrame

/-! ## Theorems: the forward scan -/

section ForwardScan

variable {σ δ : Type}

/-- C16 (amended): one round of the forward scan `move(t)`.  A frame delivered by `ReadRaw`
whose sample interval ends at or before `t` (`CompositionTime + TimeDelta <= t`) is
discarded and the scan goes on from the session that `ReadRaw` left; the first delivered
frame whose interval ends after `t` (`CompositionTime + TimeDelta > t`) is held as the seek
frame and `move` returns nil; and when `ReadRaw` returns an error, in particular
`ErrEndOfStream`, `move` returns that error and no frame is held. -/
theorem move_round (env : Env σ δ) (t : Int) (fuel : Nat) (v v1 : Mp4dec σ δ)
    (raw : Option Planes) (err : Option GoError)
    (h : ReadRaw env (fuel + 1) v = .ok (raw, err, v1)) :
    (∀ cur, err = none → v1.currentSample = some cur →
      int64 (cur.CompositionTime + int64 cur.TimeDelta) ≤ t →
      move env t (fuel + 1) v = move env t fuel v1) ∧
    (∀ cur, err = none → v1.currentSample = some cur →
      t < int64 (cur.CompositionTime + int64 cur.TimeDelta) →
      raw ≠ none ∧ move env t (fuel + 1) v = .ok (none, { v1 with seekframe := raw })) ∧
    (∀ e, err = some e → move env t (fuel + 1) v = .ok (some e, v1) ∧ v1.seekframe = none) := by
  refine ⟨fun cur he hcur hle => ?_, fun cur he hcur hlt => ?_, fun e he => ?_⟩
  · subst he
    rw [move, h]
    simp only [hcur, gt_iff_lt, not_lt.mpr hle, if_false]
  · subst he
    refine ⟨(ReadRaw_ret _ _ _ _ _ _ h).2 rfl, ?_⟩
    rw [move, h]
    simp only [hcur, gt_iff_lt, hlt, if_true]
  · subst he
    refine ⟨?_, ReadRaw_clears_seekframe _ _ _ _ _ _ h⟩
    rw [move, h]

theorem move_round_witness :
    ReadRaw demoEnv (4 + 1) (demoSession 0) = .ok (some (demoPicture 0), none, demoRead1) ∧
      demoRead1.currentSample = some ⟨0, 1000, 1000, 4⟩ ∧
      int64 ((1000 : Int) + int64 (1000 : Nat)) ≤ 2000 ∧
      move demoEnv 2000 (4 + 1) (demoSession 0) = move demoEnv 2000 4 demoRead1 :=
  ⟨by decide, by decide, by decide,
    (move_round demoEnv 2000 4 (demoSession 0) demoRead1 (some (demoPicture 0)) none
      (by decide)).1 ⟨0, 1000, 1000, 4⟩ rfl (by decide) (by decide)⟩

/-- C16 (as stated) fails at the boundary: with `t = 2000` the first frame that `ReadRaw`
delivers is that of sample 0, whose interval [1000, 2000) ends at `t`, so it is the first
delivered frame whose interval ends at or after `t`; `move(2000)` discards it and holds the
frame of sample 1. -/
theorem move_boundary_counterexample :
    ReadRaw demoEnv 5 (demoSession 0) = .ok (some (demoPicture 0), none, demoRead1) ∧
      demoRead1.currentSample = some ⟨0, 1000, 1000, 4⟩ ∧
      (1000 : Int) + 1000 ≥ 2000 ∧
      (move demoEnv 2000 5 (demoSession 0)).map (fun r => (r.1, r.2.seekframe, r.2.currentSample))
        = .ok (none, some (demoPicture 1), some ⟨1, 2000, 1000, 4⟩) :=
  ⟨by decide, by decide, by decide, by rfl⟩
end ForwardScan

/-! ## Theorems: seeking twice, and the frame counter at the end of the stream -/

section SeekTwice

variable {σ δ : Type}

/-- `Seek` when the demuxer reports a discontinuity: reset, re-initialization (whose result
is dropped), then the forward scan. -/
theorem Seek_discontinuity (env : Env σ δ) (fuel : Nat) (t : Int) (v v2 v3 : Mp4dec σ δ)
    (m m1 : σ) (e : Option GoError) (hm : v.mp4read = some m) (hin : inDecoder v t = false)
    (hseek : env.src.Seek m t false = (m1, true, none))
    (hflush : flush env (({ v with mp4read := some m1 }).log .srcSeek) = .ok v2)
    (hinit : decoderInit env v2 = .ok (e, v3)) :
    Seek env fuel t v = move env t fuel v3 := by
  simp only [Seek, hm, hin, hseek, hflush, hinit, Bool.not_false, if_true]

/-- The forward scan holds a delivered frame whose interval ends after the target. -/
theorem move_hold (env : Env σ δ) (t : Int) (fuel : Nat) (v v1 : Mp4dec σ δ)
    (raw : Option Planes) (cur : VideoSampleInfo)
    (h : ReadRaw env (fuel + 1) v = .ok (raw, none, v1)) (hcur : v1.currentSample = some cur)
    (hlt : t < int64 (cur.CompositionTime + int64 cur.TimeDelta)) :
    move env t (fuel + 1) v = .ok (none, { v1 with seekframe := raw }) := by
  rw [move, h]
  simp only [hcur, gt_iff_lt, hlt, if_true]

theorem lagHeld_Seek : Seek lagEnv 3 500 (lagSession oneTrack) = .ok (none, lagHeld) := by
  rw [Seek_discontinuity lagEnv 3 500 (lagSession oneTrack) lagFlushed lagPrimed
    (oneTrack, oneTrack) (oneTrack, oneTrack) none rfl (by decide) rfl rfl rfl]
  exact move_hold lagEnv 500 2 lagPrimed lagDelivered (some (demoPicture 0)) ⟨0, 0, 1000, 4⟩
    rfl rfl (by decide)
end SeekTwice

section SeekTwiceClaims


/-- C13 (the code at the failing input): on a track with a single sample, whose picture
the decoder gives only with the flush at the end of the stream, the first `Seek(500)`
returns nil and holds that picture, the session being Exhausted, and `ReadRaw` delivers it.
The second `Seek(500)` resets the session, but the drain counter stays at -1, so it
returns `ErrEndOfStream`, and the `ReadRaw` after it delivers no frame. -/
theorem Seek_twice_end_of_stream :
    Seek lagEnv 3 500 (lagSession oneTrack) = .ok (none, lagHeld) ∧
    lagHeld.num_of_frames_in_buffer = -1 ∧
    ReadRaw lagEnv 3 lagHeld = .ok (some (demoPicture 0), none, lagDelivered) ∧
    Seek lagEnv 3 500 lagDelivered = .ok (some .ErrEndOfStream, lagSoughtAgain) ∧
    ReadRaw lagEnv 3 lagSoughtAgain = .ok (none, some .ErrEndOfStream, lagSoughtAgain) :=
  ⟨lagHeld_Seek, by decide, by rfl, by rfl, by rfl⟩

/-- C14 (the code at the failing input): on a fresh session (frame counter -1) over a track
with the single sample 0, the decoder gives the picture only with the flush at the end of
the stream; the first `ReadRaw` delivers it, matched to sample 0, and `CurrentFrameNumber()`
is 0 afterwards.  When the first picture comes from a decode call, it is 1. -/
theorem CurrentFrameNumber_first_flush :
    CurrentFrameNumber (lagSession oneTrack) = -1 ∧
    (ReadRaw lagEnv 3 (lagSession oneTrack)).map
        (fun r => (r.1, r.2.1, r.2.2.currentSample, r.2.2.calls, CurrentFrameNumber r.2.2))
      = .ok (some (demoPicture 0), none, some ⟨0, 0, 1000, 4⟩,
          [Call.NextSample, Call.ReadMdatAtSample, Call.DecodeFrameNoDelay, Call.NextSample,
            Call.SetOption, Call.GetOption, Call.FlushFrame], 0) ∧
    CurrentFrameNumber (demoSession 0) = -1 ∧
    (ReadRaw demoEnv 3 (demoSession 0)).map
        (fun r => (r.1, r.2.1, r.2.2.currentSample, r.2.2.calls, CurrentFrameNumber r.2.2))
      = .ok (some (demoPicture 0), none, some ⟨0, 1000, 1000, 4⟩,
          [Call.NextSample, Call.ReadMdatAtSample, Call.DecodeFrameNoDelay], 1) :=
  ⟨by decide, by rfl, by decide, by rfl⟩

end SeekTwiceClaims

/-! ## Theorems: what stays in the in-flight map -/

section KeptEntries

variable {σ δ : Type}

theorem SampleMap.get_put_ne_none (m : SampleMap) (j k : Int) (x : VideoSampleInfo)
    (h : m.get k ≠ none) : (m.put j x).get k ≠ none := by
  by_cases hk : k = j
  · rw [hk, SampleMap.get_put_self]; simp
  · rw [SampleMap.get_put_ne _ _ _ _ hk]; exact h

theorem Kept.trans {m : SampleMap} {v1 v2 : Mp4dec σ δ} {raw : Option Planes}
    (h1 : Kept m none v1) (h2 : Kept v1.samplesinDecoder raw v2) : Kept m raw v2 := by
  intro k hk
  rcases h1 k hk with h | h
  · exact h2 k h
  · exact absurd rfl h.1

theorem afterDecode_kept (sample : VideoSampleInfo) (pDst : Planes) (info : SBufferInfo)
    (err : Option GoError) (v : Mp4dec σ δ) (hinfo : v.DstBufInfo = info) :
    Kept v.samplesinDecoder (afterDecode sample pDst info err v).raw
      (afterDecode sample pDst info err v).session := by
  intro k hk
  unfold afterDecode
  split
  · dsimp only
    split
    · by_cases hkey : k = int64 info.UiOutYuvTimeStamp
      · right
        refine ⟨by simp [Step.raw], ?_⟩
        simp only [Step.session, hinfo]
        exact hkey
      · left
        simp only [Step.session]
        rw [SampleMap.get_delete_ne _ _ _ hkey]
        exact hk
    · left; exact hk
  · split
    · left; exact hk
    · left; exact hk

theorem afterDecode_kept_of (sample : VideoSampleInfo) (pDst : Planes) (info : SBufferInfo)
    (err : Option GoError) (v w : Mp4dec σ δ) (st : Step σ δ)
    (hst : afterDecode sample pDst info err w = st) (hinfo : w.DstBufInfo = info)
    (hmap : w.samplesinDecoder = v.samplesinDecoder.put sample.Number sample) :
    Kept v.samplesinDecoder st.raw st.session := by
  intro k hk
  rw [← hst]
  refine afterDecode_kept sample pDst info err w hinfo k ?_
  rw [hmap]
  exact SampleMap.get_put_ne_none _ _ _ _ hk

theorem decodeSample_kept (env : Env σ δ) (sample : VideoSampleInfo) (v : Mp4dec σ δ)
    (st : Step σ δ) (h : decodeSample env sample v = .ok st) :
    Kept v.samplesinDecoder st.raw st.session := by
  unfold decodeSample at h
  split at h
  · split at h
    · simp at h
    · split at h
      simp only [Except.ok.injEq] at h
      exact afterDecode_kept_of _ _ _ _ v _ st h rfl rfl
  · simp only [Except.ok.injEq] at h
    rw [← h]
    intro k hk
    left; exact hk

theorem readStep_kept (env : Env σ δ) (sample : VideoSampleInfo) (v : Mp4dec σ δ)
    (st : Step σ δ) (h : readStep env sample v = .ok st) :
    Kept v.samplesinDecoder st.raw st.session := by
  unfold readStep at h
  repeat' split at h
  all_goals try (simp at h; done)
  all_goals try (simp only [Except.ok.injEq] at h; rw [← h]; intro k hk; left; exact hk)
  intro k hk
  exact decodeSample_kept _ _ _ _ h k (by exact hk)

theorem readLoop_kept (env : Env σ δ) (fuel : Nat) :
    ∀ (sample : VideoSampleInfo) (v : Mp4dec σ δ) (st : Step σ δ),
      readLoop env fuel sample v = .ok st → Kept v.samplesinDecoder st.raw st.session := by
  induction fuel with
  | zero => intro sample v st h; simp [readLoop] at h
  | succ n ih =>
    intro sample v st h
    unfold readLoop at h
    split at h
    · simp at h
    · rename_i heq
      exact Kept.trans (readStep_kept _ _ _ _ heq) (ih _ _ _ h)
    · rename_i heq
      simp only [Except.ok.injEq] at h
      rw [← h]
      exact readStep_kept _ _ _ _ heq

theorem afterFlush_kept (pDst : Planes) (info : SBufferInfo)
    (err : Option GoError) (v : Mp4dec σ δ) (hinfo : v.DstBufInfo = info) :
    Kept v.samplesinDecoder (afterFlush pDst info err v).raw
      (afterFlush pDst info err v).session := by
  intro k hk
  unfold afterFlush
  split
  · dsimp only
    split
    · by_cases hkey : k = int64 info.UiOutYuvTimeStamp
      · right
        refine ⟨by simp [Round.raw], ?_⟩
        simp only [Round.session, hinfo]
        exact hkey
      · left
        simp only [Round.session]
        rw [SampleMap.get_delete_ne _ _ _ hkey]
        exact hk
    · left; exact hk
  · split
    · left; exact hk
    · left; exact hk

theorem afterFlush_kept_of (pDst : Planes) (info : SBufferInfo) (err : Option GoError)
    (v w : Mp4dec σ δ) (st : Round σ δ) (hst : afterFlush pDst info err w = st)
    (hinfo : w.DstBufInfo = info) (hmap : w.samplesinDecoder = v.samplesinDecoder) :
    Kept v.samplesinDecoder st.raw st.session := by
  rw [← hst, ← hmap]
  exact afterFlush_kept pDst info err w hinfo

theorem drainStep_kept (env : Env σ δ) (v : Mp4dec σ δ) (st : Round σ δ)
    (h : drainStep env v = .ok st) : Kept v.samplesinDecoder st.raw st.session := by
  unfold drainStep at h
  split at h
  · simp at h
  · split at h
    simp only [Except.ok.injEq] at h
    exact afterFlush_kept_of _ _ _ v _ st h rfl rfl

theorem drainLoop_kept (env : Env σ δ) (fuel : Nat) :
    ∀ (v v1 : Mp4dec σ δ) (raw : Option Planes) (err : Option GoError),
      drainLoop env fuel v = .ok (raw, err, v1) → Kept v.samplesinDecoder raw v1 := by
  induction fuel with
  | zero =>
    intro v v1 raw err h
    unfold drainLoop at h
    split at h
    · simp at h
    · simp only [Except.ok.injEq, Prod.mk.injEq] at h
      rw [← h.2.2]
      intro k hk; left; exact hk
  | succ n ih =>
    intro v v1 raw err h
    unfold drainLoop at h
    split at h
    · dsimp only at h
      split at h
      · simp at h
      · rename_i heq
        exact Kept.trans (drainStep_kept _ _ _ heq) (ih _ _ _ _ h)
      · rename_i heq
        simp only [Except.ok.injEq, Prod.mk.injEq] at h
        obtain ⟨h1, _, h3⟩ := h
        subst h1 h3
        exact drainStep_kept _ _ _ heq
    · simp only [Except.ok.injEq, Prod.mk.injEq] at h
      rw [← h.2.2]
      intro k hk; left; exact hk

theorem drain_kept (env : Env σ δ) (v v1 : Mp4dec σ δ) (raw : Option Planes)
    (err : Option GoError) (h : drain env v = .ok (raw, err, v1)) :
    Kept v.samplesinDecoder raw v1 := by
  unfold drain at h
  split at h
  · split at h
    · simp at h
    · split at h
      intro k hk
      exact drainLoop_kept _ _ _ _ _ _ h k (by exact hk)
  · exact drainLoop_kept _ _ _ _ _ _ h

/-- `ReadRaw` takes a key out of the in-flight map only when it delivers a picture, and
then only the output key that the decoder reported with it. -/
theorem ReadRaw_kept (env : Env σ δ) (fuel : Nat) (v v1 : Mp4dec σ δ)
    (raw : Option Planes) (err : Option GoError)
    (h : ReadRaw env fuel v = .ok (raw, err, v1)) : Kept v.samplesinDecoder raw v1 := by
  unfold ReadRaw at h
  split at h
  · simp only [Except.ok.injEq, Prod.mk.injEq] at h
    rw [← h.2.2]
    intro k hk; left; exact hk
  · split at h
    · simp only [Except.ok.injEq, Prod.mk.injEq] at h
      rw [← h.2.2]
      intro k hk; left; exact hk
    · split at h
      · simp at h
      · simp at h
      · rename_i heq
        simp only [Except.ok.injEq, Prod.mk.injEq] at h
        obtain ⟨h1, _, h3⟩ := h
        subst h1 h3
        exact readLoop_kept _ _ _ _ _ heq
      · rename_i heq
        exact Kept.trans (readLoop_kept _ _ _ _ _ heq) (drain_kept _ _ _ _ _ h)

end KeptEntries

/-! ## Theorems: the walk of avctoAnnexB over any buffer -/

section Walk


theorem split_four (cur : List Byte) (off : Nat) (h : off + 4 ≤ cur.length) :
    ∃ pre b0 b1 b2 b3 post, cur = pre ++ (b0 :: b1 :: b2 :: b3 :: post) ∧ pre.length = off := by
  refine ⟨cur.take off, ?_⟩
  have hd : 4 ≤ (cur.drop off).length := by simp; omega
  match hdrop : cur.drop off, hd with
  | b0 :: b1 :: b2 :: b3 :: post, _ =>
    refine ⟨b0, b1, b2, b3, post, ?_, ?_⟩
    · rw [← hdrop, List.take_append_drop]
    · simp; omega

theorem getD_append_add (pre l : List Byte) (i : Nat) :
    (pre ++ l).getD (pre.length + i) 0 = l.getD i 0 := by
  rw [List.getD_eq_getElem?_getD, List.getD_eq_getElem?_getD,
    List.getElem?_append_right (by omega)]
  simp

theorem be32At_append (pre post : List Byte) (b0 b1 b2 b3 : Byte) :
    be32At (pre ++ (b0 :: b1 :: b2 :: b3 :: post)) pre.length
      = ((b0.val * 256 + b1.val) * 256 + b2.val) * 256 + b3.val := by
  have h0 := getD_append_add pre (b0 :: b1 :: b2 :: b3 :: post) 0
  rw [Nat.add_zero] at h0
  simp only [be32At, getD_append_add, h0]
  rfl

theorem writeCode_append (pre post : List Byte) (b0 b1 b2 b3 : Byte) :
    writeCode (pre ++ (b0 :: b1 :: b2 :: b3 :: post)) pre.length
      = pre ++ (0 :: 0 :: 0 :: 1 :: post) := by
  simp [writeCode, List.set_append_right]

theorem be32At_lt (buf : List Byte) (off : Nat) : be32At buf off < 2 ^ 32 := by
  unfold be32At
  have h0 := (buf.getD off 0).isLt
  have h1 := (buf.getD (off + 1) 0).isLt
  have h2 := (buf.getD (off + 2) 0).isLt
  have h3 := (buf.getD (off + 3) 0).isLt
  omega

/-- One round of the walk: the inner loop reads the length and zeroes the four bytes. -/
theorem lengthLoop_round (cur : List Byte) (off length : Nat) (h : off + 4 ≤ cur.length) :
    ∃ zeroed, lengthLoop off 4 0 length cur = .ok (be32At cur off, zeroed) ∧
      zeroed.length = cur.length ∧ zeroed.set (off + 4 - 1) 1 = writeCode cur off := by
  obtain ⟨pre, b0, b1, b2, b3, post, rfl, rfl⟩ := split_four cur off h
  have hloop := lengthLoop_append pre post [b0, b1, b2, b3] [] length
  simp only [List.length_cons, List.length_nil, List.nil_append, List.cons_append,
    List.foldl_cons, List.foldl_nil] at hloop
  rw [show (0 : Nat) + 1 + 1 + 1 + 1 = 4 from rfl] at hloop
  refine ⟨pre ++ (List.replicate 4 0 ++ post), ?_, ?_, ?_⟩
  · rw [hloop, be32At_append]
    have h0 := b0.isLt
    have h1 := b1.isLt
    have h2 := b2.isLt
    have h3 := b3.isLt
    simp only [uint32, Nat.shiftLeft_eq]
    congr 2
    omega
  · simp
  · rw [writeCode_append, List.set_append_right _ _ (by omega)]
    simp [List.replicate, show pre.length + 4 - 1 - pre.length = 3 by omega]
end Walk

section WalkLemmas


theorem length_writeCode (cur : List Byte) (off : Nat) :
    (writeCode cur off).length = cur.length := by
  simp [writeCode]

theorem getElem?_writeCode_outside (cur : List Byte) (off i : Nat)
    (h : i < off ∨ off + 4 ≤ i) : (writeCode cur off)[i]? = cur[i]? := by
  simp only [writeCode, List.getElem?_set]
  rw [if_neg (by omega), if_neg (by omega), if_neg (by omega), if_neg (by omega)]

theorem getElem?_writeCode_inside (cur : List Byte) (off j : Nat) (hj : j < 4)
    (h : off + 4 ≤ cur.length) :
    (writeCode cur off)[off + j]? = ([0, 0, 0, 1] : List Byte)[j]? := by
  obtain ⟨pre, b0, b1, b2, b3, post, rfl, rfl⟩ := split_four cur off h
  rw [writeCode_append, List.getElem?_append_right (by omega)]
  have : j = 0 ∨ j = 1 ∨ j = 2 ∨ j = 3 := by omega
  rcases this with rfl | rfl | rfl | rfl <;> simp

theorem be32At_congr (cur buf : List Byte) (off : Nat)
    (h : ∀ i, off ≤ i → cur[i]? = buf[i]?) : be32At cur off = be32At buf off := by
  simp only [be32At, List.getD_eq_getElem?_getD]
  rw [h off (by omega), h (off + 1) (by omega), h (off + 2) (by omega), h (off + 3) (by omega)]

/-- The walk of `avctoAnnexB` writes the start code at the unit offsets read off the input
buffer, and does nothing else; it neither runs out of fuel nor indexes outside the buffer. -/
theorem annexbLoop_walk (buf : List Byte) :
    ∀ (fuel off length : Nat) (cur : List Byte), cur.length = buf.length →
      (∀ i, off ≤ i → cur[i]? = buf[i]?) → buf.length ≤ off + fuel →
      annexbLoop 4 fuel off length cur
        = .ok ((unitOffsets buf fuel off).foldl writeCode cur) := by
  intro fuel
  induction fuel with
  | zero =>
    intro off length cur hlen _ hfuel
    unfold annexbLoop
    rw [if_neg (by omega)]
    rfl
  | succ f ih =>
    intro off length cur hlen hagree hfuel
    unfold annexbLoop
    by_cases hlt : off + 4 < cur.length
    · obtain ⟨zeroed, hloop, hzlen, hset⟩ := lengthLoop_round cur off length (by omega)
      rw [if_pos hlt]
      simp only [hloop]
      rw [if_pos (by omega), hset, be32At_congr cur buf off hagree,
        ih _ _ (writeCode cur off) (by rw [length_writeCode, hlen])
          (fun i hi => by
            rw [getElem?_writeCode_outside cur off i (by omega)]
            exact hagree i (by omega))
          (by omega)]
      rw [unitOffsets, if_pos (by omega)]
      rfl
    · rw [if_neg hlt, unitOffsets, if_neg (by omega)]
      rfl

theorem avctoAnnexB_walk (buf : List Byte) :
    avctoAnnexB buf 4 = .ok ((unitOffsets buf buf.length 0).foldl writeCode buf, none) := by
  have h := annexbLoop_walk buf buf.length 0 0 buf rfl (fun _ _ => rfl) (by omega)
  simp only [avctoAnnexB, ne_eq, not_true_eq_false, if_false]
  rw [show (4 : Int).toNat = 4 from rfl, h]

theorem length_foldl_writeCode (offs : List Nat) :
    ∀ cur : List Byte, (offs.foldl writeCode cur).length = cur.length := by
  induction offs with
  | nil => intro cur; rfl
  | cons o rest ih => intro cur; rw [List.foldl_cons, ih, length_writeCode]

theorem getElem?_foldl_writeCode_outside (offs : List Nat) (i : Nat) :
    ∀ cur : List Byte, (∀ off ∈ offs, i < off ∨ off + 4 ≤ i) →
      (offs.foldl writeCode cur)[i]? = cur[i]? := by
  induction offs with
  | nil => intro cur _; rfl
  | cons o rest ih =>
    intro cur h
    rw [List.foldl_cons, ih _ (fun off hoff => h off (List.mem_cons_of_mem _ hoff)),
      getElem?_writeCode_outside cur o i (h o (List.mem_cons_self _ _))]

theorem unitOffsets_ge (buf : List Byte) :
    ∀ (fuel off : Nat), ∀ b ∈ unitOffsets buf fuel off, off ≤ b ∧ b + 4 < buf.length := by
  intro fuel
  induction fuel with
  | zero => intro off b hb; simp [unitOffsets] at hb
  | succ f ih =>
    intro off b hb
    unfold unitOffsets at hb
    split at hb
    · rcases List.mem_cons.mp hb with rfl | hb
      · exact ⟨Nat.le_refl _, by assumption⟩
      · have := ih _ b hb
        exact ⟨by omega, this.2⟩
    · simp at hb

theorem unitOffsets_pairwise (buf : List Byte) :
    ∀ (fuel off : Nat), (unitOffsets buf fuel off).Pairwise (fun a b => a + 4 ≤ b) := by
  intro fuel
  induction fuel with
  | zero => intro off; simp [unitOffsets]
  | succ f ih =>
    intro off
    unfold unitOffsets
    split
    · refine List.pairwise_cons.mpr ⟨fun b hb => ?_, ih _⟩
      have := (unitOffsets_ge buf f _ b hb).1
      omega
    · exact List.Pairwise.nil

theorem stopOffset_le (buf : List Byte) :
    ∀ (fuel off : Nat), buf.length ≤ off + fuel → buf.length ≤ stopOffset buf fuel off + 4 := by
  intro fuel
  induction fuel with
  | zero => intro off h; simp only [stopOffset]; omega
  | succ f ih =>
    intro off h
    unfold stopOffset
    split
    · exact ih _ (by omega)
    · omega

theorem getElem?_foldl_writeCode_inside (offs : List Nat) :
    ∀ cur : List Byte, offs.Pairwise (fun a b => a + 4 ≤ b) →
      (∀ off ∈ offs, off + 4 ≤ cur.length) →
      ∀ off ∈ offs, ∀ j, j < 4 →
        (offs.foldl writeCode cur)[off + j]? = ([0, 0, 0, 1] : List Byte)[j]? := by
  induction offs with
  | nil => intro cur _ _ off hoff; simp at hoff
  | cons o rest ih =>
    intro cur hpair hlen off hoff j hj
    rw [List.foldl_cons]
    have hp := List.pairwise_cons.mp hpair
    rcases List.mem_cons.mp hoff with rfl | hmem
    · rw [getElem?_foldl_writeCode_outside rest _ _ (fun b hb => by
        have := hp.1 b hb
        omega)]
      exact getElem?_writeCode_inside cur off j hj (hlen off (List.mem_cons_self _ _))
    · exact ih _ hp.2
        (fun b hb => by rw [length_writeCode]; exact hlen b (List.mem_cons_of_mem _ hb))
        off hmem j hj
end WalkLemmas

section WalkClaims


/-- C12: for every byte buffer, `avctoAnnexB(buf, 4)` returns (the walk neither runs out of
rounds nor indexes outside the buffer), the error is nil, and the returned buffer has the
length of the input.  The visited unit offsets increase strictly (by at least 4 each
round), at each of them more than four bytes remain, and the next offset stays below 2^63
for any buffer shorter than 2^63 - 2^32 bytes; the returned buffer is the input with the
start code written at the visited offsets, so every byte outside the visited 4-byte
length fields is unchanged. -/
theorem avctoAnnexB_total (buf : List Byte) :
    ∃ out, avctoAnnexB buf 4 = .ok (out, none) ∧ out.length = buf.length ∧
      out = (unitOffsets buf buf.length 0).foldl writeCode buf ∧
      (∀ i, (∀ off ∈ unitOffsets buf buf.length 0, i < off ∨ off + 4 ≤ i) →
        out[i]? = buf[i]?) ∧
      (unitOffsets buf buf.length 0).Pairwise (fun a b => a + 4 ≤ b) ∧
      (∀ off ∈ unitOffsets buf buf.length 0,
        off + 4 < buf.length ∧ be32At buf off < 2 ^ 32 ∧
          (buf.length < 2 ^ 63 - 2 ^ 32 → off + (4 + be32At buf off) < 2 ^ 63)) := by
  refine ⟨_, avctoAnnexB_walk buf, length_foldl_writeCode _ buf, rfl,
    fun i hi => getElem?_foldl_writeCode_outside _ i buf hi,
    unitOffsets_pairwise buf _ _, fun off hoff => ?_⟩
  have h1 := (unitOffsets_ge buf _ _ off hoff).2
  have h2 := be32At_lt buf off
  exact ⟨h1, h2, fun h3 => by omega⟩

theorem avctoAnnexB_total_witness :
    avctoAnnexB [0, 0, 0, 9, 1, 2] 4 = .ok ([0, 0, 0, 1, 1, 2], none) ∧
      avctoAnnexB [0, 0, 0, 1, 7, 0, 0] 4 = .ok ([0, 0, 0, 1, 7, 0, 0], none) ∧
      unitOffsets [0, 0, 0, 9, 1, 2] 6 0 = [0] ∧
      ∃ out, avctoAnnexB [0, 0, 0, 9, 1, 2] 4 = .ok (out, none) ∧
        out.length = ([0, 0, 0, 9, 1, 2] : List Byte).length ∧
        out = (unitOffsets [0, 0, 0, 9, 1, 2] ([0, 0, 0, 9, 1, 2] : List Byte).length 0).foldl
          writeCode [0, 0, 0, 9, 1, 2] ∧
        (∀ i, (∀ off ∈ unitOffsets [0, 0, 0, 9, 1, 2] ([0, 0, 0, 9, 1, 2] : List Byte).length 0,
            i < off ∨ off + 4 ≤ i) →
          out[i]? = ([0, 0, 0, 9, 1, 2] : List Byte)[i]?) ∧
        (unitOffsets [0, 0, 0, 9, 1, 2] ([0, 0, 0, 9, 1, 2] : List Byte).length 0).Pairwise
          (fun a b => a + 4 ≤ b) ∧
        (∀ off ∈ unitOffsets [0, 0, 0, 9, 1, 2] ([0, 0, 0, 9, 1, 2] : List Byte).length 0,
          off + 4 < ([0, 0, 0, 9, 1, 2] : List Byte).length ∧
            be32At [0, 0, 0, 9, 1, 2] off < 2 ^ 32 ∧
            (([0, 0, 0, 9, 1, 2] : List Byte).length < 2 ^ 63 - 2 ^ 32 →
              off + (4 + be32At [0, 0, 0, 9, 1, 2] off) < 2 ^ 63)) :=
  ⟨by decide, by decide, by decide, avctoAnnexB_total [0, 0, 0, 9, 1, 2]⟩

/-- C15 (amended): the walk of `avctoAnnexB(buf, 4)` stops only when at most 4 bytes remain
at the current unit offset.  Whenever more than 4 bytes remain there (a length field and at
least one further byte), the 4 bytes are read as the length, which fixes the next offset,
and are rewritten to `0,0,0,1`.  A final length field with nothing after it is left as it
is. -/
theorem avctoAnnexB_stop (buf : List Byte) :
    avctoAnnexB buf 4 = .ok ((unitOffsets buf buf.length 0).foldl writeCode buf, none) ∧
      buf.length ≤ stopOffset buf buf.length 0 + 4 ∧
      ∀ off ∈ unitOffsets buf buf.length 0, off + 4 < buf.length ∧
        ∀ j, j < 4 →
          ((unitOffsets buf buf.length 0).foldl writeCode buf)[off + j]?
            = ([0, 0, 0, 1] : List Byte)[j]? := by
  refine ⟨avctoAnnexB_walk buf, stopOffset_le buf _ _ (by omega), fun off hoff => ?_⟩
  refine ⟨(unitOffsets_ge buf _ _ off hoff).2, fun j hj => ?_⟩
  exact getElem?_foldl_writeCode_inside _ buf (unitOffsets_pairwise buf _ _)
    (fun b hb => by have := (unitOffsets_ge buf _ _ b hb).2; omega) off hoff j hj

theorem avctoAnnexB_stop_witness :
    unitOffsets [0, 0, 0, 1, 9, 0, 0, 0, 0] 9 0 = [0] ∧
      stopOffset [0, 0, 0, 1, 9, 0, 0, 0, 0] 9 0 = 5 ∧
      avctoAnnexB [0, 0, 0, 1, 9, 0, 0, 0, 0] 4
        = .ok ((unitOffsets [0, 0, 0, 1, 9, 0, 0, 0, 0]
            ([0, 0, 0, 1, 9, 0, 0, 0, 0] : List Byte).length 0).foldl writeCode
              [0, 0, 0, 1, 9, 0, 0, 0, 0], none) :=
  ⟨by decide, by decide, (avctoAnnexB_stop [0, 0, 0, 1, 9, 0, 0, 0, 0]).1⟩

/-- C15 (as stated) fails: in the buffer `{0,0,0,0}` exactly 4 bytes remain at the unit
offset 0, a length field with a payload of length zero, and `avctoAnnexB` returns the
buffer as it is, the length field not rewritten to `0,0,0,1`. -/
theorem avctoAnnexB_bare_field_counterexample :
    ([0, 0, 0, 0] : List Byte).length = 0 + 4 ∧
      avctoAnnexB [0, 0, 0, 0] 4 = .ok ([0, 0, 0, 0], none) ∧
      ([0, 0, 0, 0] : List Byte) ≠ [0, 0, 0, 1] := by
  decide
end WalkClaims

/-! ## Theorems: draining the decoder at the end of the stream -/

section DrainCount

variable {σ δ : Type}

theorem afterFlush_fields (pDst : Planes) (info : SBufferInfo) (err : Option GoError)
    (v : Mp4dec σ δ) :
    (afterFlush pDst info err v).session.calls = v.calls ∧
      (afterFlush pDst info err v).session.num_of_frames_in_buffer = v.num_of_frames_in_buffer ∧
      (afterFlush pDst info err v).session.mp4read = v.mp4read := by
  unfold afterFlush
  split
  · dsimp only
    split <;> exact ⟨rfl, rfl, rfl⟩
  · split <;> exact ⟨rfl, rfl, rfl⟩

theorem drainStep_fields (env : Env σ δ) (v : Mp4dec σ δ) (st : Round σ δ)
    (h : drainStep env v = .ok st) :
    st.session.calls = v.calls ++ [Call.FlushFrame] ∧
      st.session.num_of_frames_in_buffer
        = (if v.num_of_frames_in_buffer - 1 = 0 then -1 else v.num_of_frames_in_buffer - 1) ∧
      st.session.mp4read = v.mp4read := by
  unfold drainStep at h
  split at h
  · simp at h
  · split at h
    simp only [Except.ok.injEq] at h
    rw [← h]
    obtain ⟨h1, h2, h3⟩ := afterFlush_fields (σ := σ) (δ := δ) _ _ _ _
    rw [h1, h2, h3]
    exact ⟨rfl, rfl, rfl⟩

theorem drainStep_flushes (env : Env σ δ) (v : Mp4dec σ δ) (st : Round σ δ)
    (h : drainStep env v = .ok st) (hpos : 0 < v.num_of_frames_in_buffer) :
    st.session.flushes + st.session.num_of_frames_in_buffer.toNat
        = v.flushes + v.num_of_frames_in_buffer.toNat ∧
      st.session.flushes = v.flushes + 1 ∧
      st.session.queries = v.queries ∧
      st.session.num_of_frames_in_buffer ≠ 0 ∧
      (st.session.num_of_frames_in_buffer.toNat = 0 →
        st.session.num_of_frames_in_buffer = -1) ∧
      st.session.mp4read = v.mp4read := by
  obtain ⟨h1, h2, h3⟩ := drainStep_fields env v st h
  have hF : st.session.flushes = v.flushes + 1 := by simp [Mp4dec.flushes, h1]
  have hG : st.session.queries = v.queries := by simp [Mp4dec.queries, h1]
  refine ⟨?_, hF, hG, ?_, ?_, h3⟩
  · rw [hF, h2]; split <;> omega
  · rw [h2]; split <;> omega
  · rw [h2]; split
    · intro _; rfl
    · intro h0; omega

theorem drainLoop_count (env : Env σ δ) (fuel : Nat) :
    ∀ (v v1 : Mp4dec σ δ) (raw : Option Planes) (err : Option GoError),
      drainLoop env fuel v = .ok (raw, err, v1) →
      v1.flushes + v1.num_of_frames_in_buffer.toNat
          = v.flushes + v.num_of_frames_in_buffer.toNat ∧
        v1.queries = v.queries ∧ v1.num_of_frames_in_buffer ≠ 0 ∧
        (v1.num_of_frames_in_buffer.toNat = 0 → v1.num_of_frames_in_buffer = -1) ∧
        v1.mp4read = v.mp4read ∧ (raw ≠ none → v.flushes < v1.flushes) ∧
        v.flushes ≤ v1.flushes := by
  have hlast : ∀ (v v1 : Mp4dec σ δ) (raw : Option Planes) (err : Option GoError),
      ¬ v.num_of_frames_in_buffer > 0 →
      (Except.ok (none, some GoError.ErrEndOfStream, { v with num_of_frames_in_buffer := -1 })
          : Except Fault (Option Planes × Option GoError × Mp4dec σ δ)) = .ok (raw, err, v1) →
      v1.flushes + v1.num_of_frames_in_buffer.toNat
          = v.flushes + v.num_of_frames_in_buffer.toNat ∧
        v1.queries = v.queries ∧ v1.num_of_frames_in_buffer ≠ 0 ∧
        (v1.num_of_frames_in_buffer.toNat = 0 → v1.num_of_frames_in_buffer = -1) ∧
        v1.mp4read = v.mp4read ∧ (raw ≠ none → v.flushes < v1.flushes) ∧
        v.flushes ≤ v1.flushes := by
    intro v v1 raw err hneg h
    simp only [Except.ok.injEq, Prod.mk.injEq] at h
    obtain ⟨h1, _, h3⟩ := h
    subst h1 h3
    refine ⟨?_, rfl, by simp, fun _ => rfl, rfl, fun h => absurd rfl h, Nat.le_refl _⟩
    show v.flushes + (-1 : Int).toNat = _
    omega
  induction fuel with
  | zero =>
    intro v v1 raw err h
    unfold drainLoop at h
    split at h
    · simp at h
    · rename_i hneg
      exact hlast _ _ _ _ hneg h
  | succ n ih =>
    intro v v1 raw err h
    unfold drainLoop at h
    split at h
    · rename_i hpos
      dsimp only at h
      split at h
      · simp at h
      · rename_i w heq
        obtain ⟨s1, s2, s3, _, _, s6⟩ := drainStep_flushes env v _ heq hpos
        obtain ⟨t1, t2, t3, t4, t5, t6, t7⟩ := ih _ _ _ _ h
        simp only [Round.session] at s1 s2 s3 s6
        refine ⟨by omega, by omega, t3, t4, by rw [t5, s6], fun hr => ?_, by omega⟩
        have := t6 hr
        omega
      · rename_i raw0 err0 w heq
        simp only [Except.ok.injEq, Prod.mk.injEq] at h
        obtain ⟨h1, _, h3⟩ := h
        subst h1 h3
        obtain ⟨s1, s2, s3, s4, s5, s6⟩ := drainStep_flushes env v _ heq hpos
        simp only [Round.session] at s1 s2 s3 s4 s5 s6
        exact ⟨s1, s3, s4, s5, s6, fun _ => by omega, by omega⟩
    · rename_i hneg
      exact hlast _ _ _ _ hneg h
end DrainCount

section DrainReadRaw

variable {σ δ : Type}

/-- With the demuxer at its end, a `ReadRaw` that gets past its first two tests pulls once,
leaves the sample loop and drains. -/
theorem ReadRaw_atEnd (env : Env σ δ) (AtEnd : σ → Prop)
    (hEnd : ∀ m sample, AtEnd m →
      ∃ m1 sample1, env.src.NextSample m sample = (m1, sample1, some .ErrEndOfStream) ∧ AtEnd m1)
    (fuel : Nat) (v : Mp4dec σ δ) (m : σ) (r : Option Planes × Option GoError × Mp4dec σ δ)
    (hseek : v.seekframe = none) (hm : v.mp4read = some m) (hend : AtEnd m)
    (hnum : v.num_of_frames_in_buffer ≠ -1) (h : ReadRaw env fuel v = .ok r) :
    ∃ m1, AtEnd m1 ∧ drain env (({ v with mp4read := some m1 }).log .NextSample) = .ok r := by
  obtain ⟨m1, sample1, hnext, hend1⟩ := hEnd m VideoSampleInfo.zero hend
  refine ⟨m1, hend1, ?_⟩
  cases fuel with
  | zero => simp [ReadRaw, hseek, hnum, readLoop] at h
  | succ f =>
    have hstep : readStep env VideoSampleInfo.zero v
        = .ok (.brk (({ v with mp4read := some m1 }).log .NextSample)) := by
      simp only [readStep, hm, hnext, if_true]
    unfold ReadRaw at h
    split at h
    · rename_i tmp hs
      rw [hseek] at hs
      cases hs
    · rw [if_neg hnum] at h
      simp only [readLoop, hstep] at h
      exact h

/-- The first `ReadRaw` after the end of the demuxer, in the phase Decoding: the
remaining-frame count is queried, and the session drains. -/
theorem ReadRaw_first_drain (env : Env σ δ) (AtEnd : σ → Prop)
    (hEnd : ∀ m sample, AtEnd m →
      ∃ m1 sample1, env.src.NextSample m sample = (m1, sample1, some .ErrEndOfStream) ∧ AtEnd m1)
    (fuel : Nat) (v v1 : Mp4dec σ δ) (m : σ) (d d1 : δ) (n : Nat)
    (raw : Option Planes) (err : Option GoError)
    (hseek : v.seekframe = none) (hm : v.mp4read = some m) (hend : AtEnd m)
    (hnum : v.num_of_frames_in_buffer = 0) (hd : v.Decoder = some d)
    (hq : env.dec.GetOption (env.dec.SetOption d 1) 1 = (d1, (n : Int)))
    (h : ReadRaw env fuel v = .ok (raw, err, v1)) :
    Draining AtEnd (v.flushes + n) (v.queries + 1) v1 ∧ (raw ≠ none → v.flushes < v1.flushes) ∧
      (n = 0 → raw = none ∧ err = some .ErrEndOfStream) ∧ v.flushes ≤ v1.flushes := by
  obtain ⟨m1, hend1, hdrain⟩ := ReadRaw_atEnd env AtEnd hEnd fuel v m _ hseek hm hend
    (by rw [hnum]; decide) h
  have hs1 := ReadRaw_clears_seekframe env fuel v v1 raw err h
  unfold drain at hdrain
  simp only [Mp4dec.log, hnum, if_true, hd, hq] at hdrain
  obtain ⟨c1, c2, c3, c4, c5, c6, c7⟩ := drainLoop_count env _ _ _ _ _ hdrain
  simp only [Mp4dec.flushes, Mp4dec.queries, List.count_append, Int.toNat_ofNat] at c1 c2 c6 c7
  have e1 : List.count Call.FlushFrame [Call.NextSample] = 0 := by decide
  have e2 : List.count Call.FlushFrame [Call.SetOption, Call.GetOption] = 0 := by decide
  have e3 : List.count Call.GetOption [Call.NextSample] = 0 := by decide
  have e4 : List.count Call.GetOption [Call.SetOption, Call.GetOption] = 1 := by decide
  rw [e1, e2] at c1 c6 c7
  rw [e3, e4] at c2
  refine ⟨⟨hs1, ⟨m1, c5, hend1⟩, c3, c4, ?_, ?_⟩, fun hr => ?_, fun hn => ?_, ?_⟩
  · simp only [Mp4dec.flushes]; omega
  · simp only [Mp4dec.queries]; omega
  · have := c6 hr
    simp only [Mp4dec.flushes]; omega
  · subst hn
    unfold drainLoop at hdrain
    simp only [Int.toNat_ofNat, Nat.cast_zero, gt_iff_lt, lt_self_iff_false, if_false,
      Except.ok.injEq, Prod.mk.injEq] at hdrain
    exact ⟨hdrain.1.symm, hdrain.2.1.symm⟩
  · simp only [Mp4dec.flushes]; omega

/-- A later `ReadRaw` of a draining session: the count is not queried again. -/
theorem ReadRaw_draining (env : Env σ δ) (AtEnd : σ → Prop)
    (hEnd : ∀ m sample, AtEnd m →
      ∃ m1 sample1, env.src.NextSample m sample = (m1, sample1, some .ErrEndOfStream) ∧ AtEnd m1)
    (fuel total queries : Nat) (v v1 : Mp4dec σ δ) (raw : Option Planes) (err : Option GoError)
    (hv : Draining AtEnd total queries v) (h : ReadRaw env fuel v = .ok (raw, err, v1)) :
    Draining AtEnd total queries v1 ∧ (raw ≠ none → v.flushes < v1.flushes) ∧
      v.flushes ≤ v1.flushes := by
  obtain ⟨hseek, ⟨m, hm, hend⟩, hne, hz, htot, hqs⟩ := hv
  by_cases hnum : v.num_of_frames_in_buffer = -1
  · rw [ReadRaw_exhausted env fuel v hseek hnum] at h
    simp only [Except.ok.injEq, Prod.mk.injEq] at h
    obtain ⟨h1, _, h3⟩ := h
    subst h1 h3
    exact ⟨⟨hseek, ⟨m, hm, hend⟩, hne, hz, htot, hqs⟩, fun hr => absurd rfl hr, Nat.le_refl _⟩
  · obtain ⟨m1, hend1, hdrain⟩ := ReadRaw_atEnd env AtEnd hEnd fuel v m _ hseek hm hend hnum h
    have hs1 := ReadRaw_clears_seekframe env fuel v v1 raw err h
    unfold drain at hdrain
    simp only [Mp4dec.log, hne, if_false] at hdrain
    obtain ⟨c1, c2, c3, c4, c5, c6, c7⟩ := drainLoop_count env _ _ _ _ _ hdrain
    simp only [Mp4dec.flushes, Mp4dec.queries, List.count_append] at c1 c2 c6 c7
    have e1 : List.count Call.FlushFrame [Call.NextSample] = 0 := by decide
    have e3 : List.count Call.GetOption [Call.NextSample] = 0 := by decide
    rw [e1] at c1 c6 c7
    rw [e3] at c2
    simp only [Mp4dec.flushes, Mp4dec.queries] at htot hqs
    refine ⟨⟨hs1, ⟨m1, c5, hend1⟩, c3, c4, ?_, ?_⟩, fun hr => ?_, ?_⟩
    · simp only [Mp4dec.flushes]; omega
    · simp only [Mp4dec.queries]; omega
    · have := c6 hr
      simp only [Mp4dec.flushes]; omega
    · simp only [Mp4dec.flushes]; omega
end DrainReadRaw

section DrainClaim

variable {σ δ : Type}

theorem pictures_cons (raw : Option Planes) (err : Option GoError)
    (rs : List (Option Planes × Option GoError)) :
    pictures ((raw, err) :: rs) = (if raw ≠ none then 1 else 0) + pictures rs := by
  cases raw <;> simp [pictures, List.filter_cons]; omega

theorem readCalls_num (env : Env σ δ) (fuel k : Nat) :
    ∀ (v vk : Mp4dec σ δ) (rs : List (Option Planes × Option GoError)),
      v.num_of_frames_in_buffer = -1 → readCalls env fuel k v = .ok (rs, vk) →
      vk.num_of_frames_in_buffer = -1 := by
  induction k with
  | zero =>
    intro v vk rs hnum h
    simp only [readCalls, Except.ok.injEq, Prod.mk.injEq] at h
    rw [← h.2]; exact hnum
  | succ k ih =>
    intro v vk rs hnum h
    unfold readCalls at h
    split at h
    · simp at h
    · rename_i raw err v1 heq
      split at h
      · simp at h
      · rename_i rs1 v2 heq2
        simp only [Except.ok.injEq, Prod.mk.injEq] at h
        rw [← h.2]
        exact ih _ _ _ (ReadRaw_num _ _ _ _ _ _ hnum heq) heq2

theorem readCalls_draining (env : Env σ δ) (AtEnd : σ → Prop)
    (hEnd : ∀ m sample, AtEnd m →
      ∃ m1 sample1, env.src.NextSample m sample = (m1, sample1, some .ErrEndOfStream) ∧ AtEnd m1)
    (fuel total queries k : Nat) :
    ∀ (v vk : Mp4dec σ δ) (rs : List (Option Planes × Option GoError)),
      Draining AtEnd total queries v → readCalls env fuel k v = .ok (rs, vk) →
      Draining AtEnd total queries vk ∧ pictures rs + v.flushes ≤ vk.flushes ∧
        ((∃ r ∈ rs, r.2 = some .ErrEndOfStream) → vk.num_of_frames_in_buffer = -1) := by
  induction k with
  | zero =>
    intro v vk rs hv h
    simp only [readCalls, Except.ok.injEq, Prod.mk.injEq] at h
    obtain ⟨h1, h2⟩ := h
    subst h1 h2
    exact ⟨hv, by simp [pictures], fun ⟨r, hr, _⟩ => by simp at hr⟩
  | succ k ih =>
    intro v vk rs hv h
    unfold readCalls at h
    split at h
    · simp at h
    · rename_i raw err v1 heq
      split at h
      · simp at h
      · rename_i rs1 v2 heq2
        simp only [Except.ok.injEq, Prod.mk.injEq] at h
        obtain ⟨h1, h2⟩ := h
        subst h1 h2
        obtain ⟨d1, d2, d3⟩ := ReadRaw_draining env AtEnd hEnd fuel total queries v v1 raw err
          hv heq
        obtain ⟨i1, i2, i3⟩ := ih _ _ _ d1 heq2
        refine ⟨i1, ?_, ?_⟩
        · rw [pictures_cons]
          by_cases hr : raw ≠ none
          · have := d2 hr
            rw [if_pos hr]; omega
          · rw [if_neg hr]; omega
        · rintro ⟨r, hr, he⟩
          rcases List.mem_cons.mp hr with rfl | hr
          · have hx := ((ReadRaw_ret env fuel v v1 raw err heq).1 he).2
            exact readCalls_num env fuel k _ _ _ hx heq2
          · exact i3 ⟨r, hr, he⟩

theorem afterFlush_decoder (pDst : Planes) (info : SBufferInfo) (err : Option GoError)
    (v : Mp4dec σ δ) : (afterFlush pDst info err v).session.Decoder = v.Decoder := by
  unfold afterFlush
  split
  · dsimp only
    split <;> rfl
  · split <;> rfl

/-- With a decoder in the session, a round of the drain loop returns, and the session
still has a decoder afterwards. -/
theorem drainStep_ok (env : Env σ δ) (v : Mp4dec σ δ) (hd : v.Decoder ≠ none) :
    ∃ st, drainStep env v = .ok st ∧ st.session.Decoder ≠ none := by
  cases hdec : v.Decoder with
  | none => exact absurd hdec hd
  | some d =>
    unfold drainStep
    simp only [hdec]
    refine ⟨_, rfl, ?_⟩
    rw [afterFlush_decoder]
    simp [Mp4dec.log]

/-- The drain loop returns when the counter is its fuel; it makes at least one flush when
the counter is positive. -/
theorem drainLoop_total (env : Env σ δ) (fuel : Nat) :
    ∀ (v : Mp4dec σ δ), v.Decoder ≠ none → v.num_of_frames_in_buffer.toNat ≤ fuel →
      ∃ raw err v1, drainLoop env fuel v = .ok (raw, err, v1) ∧ v1.Decoder ≠ none ∧
        (0 < v.num_of_frames_in_buffer → v.flushes < v1.flushes) := by
  induction fuel with
  | zero =>
    intro v hd hf
    have hneg : ¬ v.num_of_frames_in_buffer > 0 := by omega
    unfold drainLoop
    rw [if_neg hneg]
    exact ⟨_, _, _, rfl, hd, fun h => absurd h hneg⟩
  | succ f ih =>
    intro v hd hf
    by_cases hpos : v.num_of_frames_in_buffer > 0
    · obtain ⟨st, hst, hdst⟩ := drainStep_ok env v hd
      obtain ⟨_, s2, _, _, _, _⟩ := drainStep_flushes env v st hst hpos
      obtain ⟨_, s7, _⟩ := drainStep_fields env v st hst
      unfold drainLoop
      rw [if_pos hpos]
      cases st with
      | next w =>
        simp only [Round.session] at hdst s2 s7
        have hw : w.num_of_frames_in_buffer.toNat ≤ f := by
          rw [s7]; split <;> omega
        obtain ⟨raw, err, v1, h1, h2, _⟩ := ih w hdst hw
        obtain ⟨_, _, _, _, _, _, c7⟩ := drainLoop_count env f w v1 raw err h1
        refine ⟨raw, err, v1, ?_, h2, fun _ => by omega⟩
        simp only [hst]
        exact h1
      | ret raw err w =>
        simp only [Round.session] at hdst s2
        refine ⟨raw, err, w, ?_, hdst, fun _ => by omega⟩
        simp only [hst]
    · unfold drainLoop
      rw [if_neg hpos]
      exact ⟨_, _, _, rfl, hd, fun h => absurd h hpos⟩

/-- What follows the end of the sample loop returns whenever the session has a decoder. -/
theorem drain_total (env : Env σ δ) (v : Mp4dec σ δ) (d : δ) (hd : v.Decoder = some d) :
    ∃ raw err v1, drain env v = .ok (raw, err, v1) ∧ v1.Decoder ≠ none ∧
      (0 < v.num_of_frames_in_buffer → v.flushes < v1.flushes) ∧
      (v.num_of_frames_in_buffer = 0 →
        0 < (env.dec.GetOption (env.dec.SetOption d 1) 1).2 → v.flushes < v1.flushes) := by
  by_cases h0 : v.num_of_frames_in_buffer = 0
  · unfold drain
    simp only [h0, if_true, hd]
    obtain ⟨raw, err, v1, h1, h2, h3⟩ := drainLoop_total env
      (env.dec.GetOption (env.dec.SetOption d 1) 1).2.toNat
      { v with
        Decoder := some (env.dec.GetOption (env.dec.SetOption d 1) 1).1
        num_of_frames_in_buffer := (env.dec.GetOption (env.dec.SetOption d 1) 1).2
        calls := v.calls ++ [Call.SetOption, Call.GetOption] } (by simp) (Nat.le_refl _)
    refine ⟨raw, err, v1, h1, h2, fun h => by omega, fun _ hn => ?_⟩
    have := h3 hn
    simp only [Mp4dec.flushes, List.count_append] at this
    have e2 : List.count Call.FlushFrame [Call.SetOption, Call.GetOption] = 0 := by decide
    rw [e2] at this
    simp only [Mp4dec.flushes]
    omega
  · unfold drain
    rw [if_neg h0]
    obtain ⟨raw, err, v1, h1, h2, h3⟩ := drainLoop_total env _ v (by rw [hd]; simp)
      (Nat.le_refl _)
    exact ⟨raw, err, v1, h1, h2, h3, fun h => absurd h h0⟩

/-- With the demuxer at its end and fuel for one pull, a `ReadRaw` that gets past its
first two tests is the drain of the session after that pull. -/
theorem ReadRaw_atEnd_eq (env : Env σ δ) (AtEnd : σ → Prop)
    (hEnd : ∀ m sample, AtEnd m →
      ∃ m1 sample1, env.src.NextSample m sample = (m1, sample1, some .ErrEndOfStream) ∧ AtEnd m1)
    (fuel : Nat) (v : Mp4dec σ δ) (m : σ) (hfuel : 0 < fuel)
    (hseek : v.seekframe = none) (hm : v.mp4read = some m) (hend : AtEnd m)
    (hnum : v.num_of_frames_in_buffer ≠ -1) :
    ∃ m1, AtEnd m1 ∧
      ReadRaw env fuel v = drain env (({ v with mp4read := some m1 }).log .NextSample) := by
  obtain ⟨m1, sample1, hnext, hend1⟩ := hEnd m VideoSampleInfo.zero hend
  refine ⟨m1, hend1, ?_⟩
  cases fuel with
  | zero => omega
  | succ f =>
    have hstep : readStep env VideoSampleInfo.zero v
        = .ok (.brk (({ v with mp4read := some m1 }).log .NextSample)) := by
      simp only [readStep, hm, hnext, if_true]
    unfold ReadRaw
    split
    · rename_i tmp hs
      rw [hseek] at hs
      cases hs
    · rw [if_neg hnum]
      simp only [readLoop, hstep]

/-- A `ReadRaw` of a draining session that has a decoder returns; it makes at least one
flush unless the session is Exhausted, and then it returns `ErrEndOfStream`. -/
theorem ReadRaw_draining_total (env : Env σ δ) (AtEnd : σ → Prop)
    (hEnd : ∀ m sample, AtEnd m →
      ∃ m1 sample1, env.src.NextSample m sample = (m1, sample1, some .ErrEndOfStream) ∧ AtEnd m1)
    (fuel total queries : Nat) (v : Mp4dec σ δ) (hfuel : 0 < fuel)
    (hv : Draining AtEnd total queries v) (hd : v.Decoder ≠ none) :
    ∃ raw err v1, ReadRaw env fuel v = .ok (raw, err, v1) ∧ v1.Decoder ≠ none ∧
      (v.num_of_frames_in_buffer ≠ -1 → v.flushes < v1.flushes) ∧
      (v.num_of_frames_in_buffer = -1 → err = some .ErrEndOfStream) := by
  obtain ⟨hseek, ⟨m, hm, hend⟩, hne, hz, _, _⟩ := hv
  by_cases hnum : v.num_of_frames_in_buffer = -1
  · exact ⟨none, some .ErrEndOfStream, v, ReadRaw_exhausted env fuel v hseek hnum, hd,
      fun h => absurd hnum h, fun _ => rfl⟩
  · obtain ⟨m1, _, heq⟩ := ReadRaw_atEnd_eq env AtEnd hEnd fuel v m hfuel hseek hm hend hnum
    cases hdec : v.Decoder with
    | none => exact absurd hdec hd
    | some d =>
      obtain ⟨raw, err, v1, h1, h2, h3, _⟩ :=
        drain_total env (({ v with mp4read := some m1 }).log .NextSample) d hdec
      refine ⟨raw, err, v1, by rw [heq]; exact h1, h2, fun _ => ?_, fun h => absurd h hnum⟩
      have hpos : 0 < v.num_of_frames_in_buffer := by
        by_contra hc
        exact hnum (hz (by omega))
      have := h3 hpos
      simp only [Mp4dec.flushes, Mp4dec.log, List.count_append] at this
      have e1 : List.count Call.FlushFrame [Call.NextSample] = 0 := by decide
      rw [e1] at this
      simp only [Mp4dec.flushes]
      omega

/-- Any number of `ReadRaw` calls on a draining session that has a decoder return; every
call makes a flush until the session is Exhausted, and a call on an Exhausted session
returns `ErrEndOfStream`. -/
theorem readCalls_progress (env : Env σ δ) (AtEnd : σ → Prop)
    (hEnd : ∀ m sample, AtEnd m →
      ∃ m1 sample1, env.src.NextSample m sample = (m1, sample1, some .ErrEndOfStream) ∧ AtEnd m1)
    (fuel total queries : Nat) (hfuel : 0 < fuel) (k : Nat) :
    ∀ (v : Mp4dec σ δ), Draining AtEnd total queries v → v.Decoder ≠ none →
      ∃ rs vk, readCalls env fuel k v = .ok (rs, vk) ∧ rs.length = k ∧
        v.flushes + min k v.num_of_frames_in_buffer.toNat ≤ vk.flushes ∧
        (v.num_of_frames_in_buffer.toNat < k → ∃ r ∈ rs, r.2 = some .ErrEndOfStream) := by
  induction k with
  | zero =>
    intro v _ _
    exact ⟨[], v, rfl, rfl, by simp, fun h => absurd h (Nat.not_lt_zero _)⟩
  | succ k ih =>
    intro v hv hd
    obtain ⟨raw, err, v1, h1, h2, h3, h4⟩ :=
      ReadRaw_draining_total env AtEnd hEnd fuel total queries v hfuel hv hd
    obtain ⟨d1, _, d3⟩ := ReadRaw_draining env AtEnd hEnd fuel total queries v v1 raw err hv h1
    obtain ⟨rs, vk, i1, i2, i3, i4⟩ := ih v1 d1 h2
    have hT := hv.2.2.2.2.1
    have hT1 := d1.2.2.2.2.1
    refine ⟨(raw, err) :: rs, vk, ?_, by simp [i2], ?_, ?_⟩
    · unfold readCalls
      simp only [h1, i1]
    · by_cases hnum : v.num_of_frames_in_buffer = -1
      · rw [hnum]
        have : ((-1 : Int)).toNat = 0 := rfl
        rw [this]
        have : v1.flushes + min k v1.num_of_frames_in_buffer.toNat ≥ v1.flushes := by omega
        simp only [Nat.min_zero]
        omega
      · have := h3 hnum
        omega
    · intro hlt
      by_cases hnum : v.num_of_frames_in_buffer = -1
      · exact ⟨(raw, err), by simp, h4 hnum⟩
      · have := h3 hnum
        obtain ⟨r, hr, he⟩ := i4 (by omega)
        exact ⟨r, List.mem_cons_of_mem _ hr, he⟩

/-- C17: let the session be in the phase Decoding with no held frame and with a decoder,
let the demuxer be at its end and stay there, and let the decoder, asked once the end is
reached, report `n` remaining frames.  Then any number `k + 1` of `ReadRaw` calls return,
and after them: the remaining-frame count has been queried exactly once; `FlushFrame` has
been invoked at least `min (k + 1) n` times and at most `n` times, one time or more with
every call until the `n`-th flush; the session is Exhausted exactly when the `n`-th flush
has been made; once a call has returned `ErrEndOfStream` exactly `n` flushes have been
made, and one of the first `n + 1` calls does return `ErrEndOfStream`; every delivered
picture came with a flush of its own, so at most `n` pictures are delivered; and when
`n = 0` the first call returns `ErrEndOfStream` at once.  A drained picture is matched
against the in-flight map as a decoded picture is: the same picture is returned, and the
map and the current sample come out the same. -/
theorem ReadRaw_drains_n (env : Env σ δ) (AtEnd : σ → Prop)
    (hEnd : ∀ m sample, AtEnd m →
      ∃ m1 sample1, env.src.NextSample m sample = (m1, sample1, some .ErrEndOfStream) ∧ AtEnd m1)
    (fuel k n : Nat) (v : Mp4dec σ δ) (m : σ) (d d1 : δ) (hfuel : 0 < fuel)
    (hseek : v.seekframe = none) (hnum : v.num_of_frames_in_buffer = 0)
    (hm : v.mp4read = some m) (hend : AtEnd m) (hd : v.Decoder = some d)
    (hq : env.dec.GetOption (env.dec.SetOption d 1) 1 = (d1, (n : Int))) :
    ∃ rs vk, readCalls env fuel (k + 1) v = .ok (rs, vk) ∧ rs.length = k + 1 ∧
      vk.queries = v.queries + 1 ∧
      v.flushes + min (k + 1) n ≤ vk.flushes ∧
      vk.flushes ≤ v.flushes + n ∧
      (vk.flushes = v.flushes + n ↔ vk.num_of_frames_in_buffer = -1) ∧
      ((∃ r ∈ rs, r.2 = some .ErrEndOfStream) → vk.flushes = v.flushes + n) ∧
      (n < k + 1 → ∃ r ∈ rs, r.2 = some .ErrEndOfStream) ∧
      pictures rs + v.flushes ≤ vk.flushes ∧
      pictures rs ≤ n ∧
      (n = 0 → rs.head? = some (none, some .ErrEndOfStream)) ∧
      (∀ (sample : VideoSampleInfo) (pDst : Planes) (info : SBufferInfo) (err : Option GoError)
        (w : Mp4dec σ δ),
        (afterFlush pDst info err w).raw = (afterDecode sample pDst info err w).raw ∧
        (afterFlush pDst info err w).session.samplesinDecoder
          = (afterDecode sample pDst info err w).session.samplesinDecoder ∧
        (afterFlush pDst info err w).session.currentSample
          = (afterDecode sample pDst info err w).session.currentSample) := by
  obtain ⟨m1, _, heq⟩ := ReadRaw_atEnd_eq env AtEnd hEnd fuel v m hfuel hseek hm hend
    (by rw [hnum]; decide)
  obtain ⟨raw, err, v1, t1, t2, _, t4⟩ :=
    drain_total env (({ v with mp4read := some m1 }).log .NextSample) d hd
  have hfirst : ReadRaw env fuel v = .ok (raw, err, v1) := by rw [heq]; exact t1
  have hstep : 0 < n → v.flushes < v1.flushes := by
    intro hn
    have := t4 hnum (by rw [hq]; exact Int.ofNat_lt.mpr hn)
    simp only [Mp4dec.flushes, Mp4dec.log, List.count_append] at this
    have e1 : List.count Call.FlushFrame [Call.NextSample] = 0 := by decide
    rw [e1] at this
    simp only [Mp4dec.flushes]
    omega
  obtain ⟨f1, f2, f3, f4⟩ := ReadRaw_first_drain env AtEnd hEnd fuel v v1 m d d1 n raw err
    hseek hm hend hnum hd hq hfirst
  obtain ⟨rs1, vk, p1, p2, p3, p4⟩ :=
    readCalls_progress env AtEnd hEnd fuel _ _ hfuel k v1 f1 t2
  obtain ⟨⟨_, _, g3, g4, g5, g6⟩, g7, g8⟩ :=
    readCalls_draining env AtEnd hEnd fuel _ _ k v1 vk rs1 f1 p1
  have hT1 := f1.2.2.2.2.1
  have hpic : pictures ((raw, err) :: rs1) + v.flushes ≤ vk.flushes := by
    rw [pictures_cons]
    by_cases hr : raw ≠ none
    · have := f2 hr
      rw [if_pos hr]; omega
    · rw [if_neg hr]
      omega
  have hex : (∃ r ∈ (raw, err) :: rs1, r.2 = some GoError.ErrEndOfStream) →
      vk.num_of_frames_in_buffer = -1 := by
    rintro ⟨r, hr, he⟩
    rcases List.mem_cons.mp hr with rfl | hr
    · have hx := ((ReadRaw_ret env fuel v v1 raw err hfirst).1 he).2
      exact readCalls_num env fuel k _ _ _ hx p1
    · exact g8 ⟨r, hr, he⟩
  have hiff : vk.flushes = v.flushes + n ↔ vk.num_of_frames_in_buffer = -1 := by
    constructor
    · intro hf
      exact g4 (by omega)
    · intro hx
      rw [hx] at g5
      simpa using g5
  refine ⟨(raw, err) :: rs1, vk, ?_, by simp [p2], g6, ?_, by omega, hiff,
    fun hr => hiff.2 (hex hr), fun hlt => ?_, hpic, by omega, fun hn => ?_, ?_⟩
  · unfold readCalls
    simp only [hfirst, p1]
  · by_cases hn : 0 < n
    · have := hstep hn
      omega
    · have h0 : n = 0 := by omega
      subst h0
      simp only [Nat.min_zero]
      omega
  · by_cases hn : 0 < n
    · have := hstep hn
      obtain ⟨r, hr, he⟩ := p4 (by omega)
      exact ⟨r, List.mem_cons_of_mem _ hr, he⟩
    · have h0 : n = 0 := by omega
      exact ⟨(raw, err), by simp, (f3 h0).2⟩
  · obtain ⟨e1, e2⟩ := f3 hn
    rw [e1, e2]; rfl
  · intro sample pDst info err w
    unfold afterFlush afterDecode
    split
    · dsimp only
      split <;> exact ⟨rfl, rfl, rfl⟩
    · split <;> exact ⟨rfl, rfl, rfl⟩
end DrainClaim

section DrainWitness


theorem lagEnv_atEnd (m : List VideoSampleInfo × List VideoSampleInfo)
    (sample : VideoSampleInfo) (h : m.1 = []) :
    ∃ m1 sample1, lagEnv.src.NextSample m sample = (m1, sample1, some .ErrEndOfStream) ∧
      m1.1 = [] :=
  ⟨m, sample, by simp [lagEnv, demoSrc, h], h⟩

theorem ReadRaw_drains_n_witness :
    readCalls lagEnv 1 (1 + 1) lagLast
        = .ok ([(some (demoPicture 0), none), (none, some .ErrEndOfStream)], lagDrained) ∧
      lagDrained.queries = lagLast.queries + 1 ∧
      lagDrained.flushes = lagLast.flushes + 1 ∧
      lagDrained.num_of_frames_in_buffer = -1 ∧
      pictures [(some (demoPicture 0), none), (none, some GoError.ErrEndOfStream)] ≤ 1 := by
  obtain ⟨rs, vk, h, _, h1, h2, h3, h4, _, _, _, h5, _⟩ :=
    ReadRaw_drains_n lagEnv (fun m => m.1 = []) lagEnv_atEnd 1 1 1 lagLast ([], oneTrack)
      (some 0) (some 0) (by decide) rfl rfl rfl rfl rfl rfl
  have he : readCalls lagEnv 1 (1 + 1) lagLast
      = .ok ([(some (demoPicture 0), none), (none, some .ErrEndOfStream)], lagDrained) := by
    rfl
  rw [he] at h
  simp only [Except.ok.injEq, Prod.mk.injEq] at h
  obtain ⟨hrs, hvk⟩ := h
  subst hrs hvk
  have hmin : min (1 + 1) 1 = 1 := by decide
  rw [hmin] at h2
  exact ⟨he, h1, by omega, h4.1 (by omega), h5⟩
end DrainWitness

/-! ## Theorems: an entry that stays in the in-flight map -/

section StaleEntry

/-- C3 (the code at the failing input): the track is gapless, with the intervals [0, 1000),
[1000, 2000), [2000, 3000) and [3000, 4000) and the duration 4000, and the decode call for
sample 0 reports status 4 without a picture.  `ReadRaw` returns that error and then the
pictures of samples 1 and 2; the entry of sample 0, registered before its decode call, is
still in the in-flight map, so `inDecoder(500)` is true.  `Seek(500)` therefore does not
ask the demuxer to seek: it reads on from where the session stands, holds the picture of
sample 3 and returns nil, and the next `ReadRaw` returns that picture, although 500 lies in
[0, duration) and not in the interval [3000, 4000) of the current sample.  Without the
entry of sample 0 in the map, `inDecoder(500)` is false and the same call asks the demuxer
to seek (and does not return nil here, the demuxer going back to sample 0). -/
theorem Seek_stale_entry :
    ReadRaw badFirstEnv 3 badFirst0 = .ok (none, some (.DecodeFrameNoDelay 4), badFirst1) ∧
    ReadRaw badFirstEnv 3 badFirst1 = .ok (some (demoPicture 1), none, badFirst2) ∧
    ReadRaw badFirstEnv 3 badFirst2 = .ok (some (demoPicture 2), none, badFirst3) ∧
    badFirst3.samplesinDecoder = [(0, ⟨0, 0, 1000, 4⟩)] ∧
    inDecoder badFirst3 500 = true ∧
    ((0 : Int) ≤ 500 ∧ 500 < Duration badFirstEnv badFirst3) ∧
    Seek badFirstEnv 3 500 badFirst3 = .ok (none, badFirstSought) ∧
    Call.srcSeek ∉ badFirstSought.calls ∧
    badFirstSought.seekframe = some (demoPicture 3) ∧
    ReadRaw badFirstEnv 3 badFirstSought = .ok (some (demoPicture 3), none, badFirst4) ∧
    CurrentCompositionTime badFirstSought = 3000 ∧
    CurrentTimeDelta badFirstSought = 1000 ∧
    ¬ (CurrentCompositionTime badFirstSought ≤ 500 ∧
        500 < CurrentCompositionTime badFirstSought + CurrentTimeDelta badFirstSought) ∧
    inDecoder { badFirst3 with samplesinDecoder := [] } 500 = false ∧
    (Seek badFirstEnv 3 500 { badFirst3 with samplesinDecoder := [] }).map
        (fun r => (r.1, decide (Call.srcSeek ∈ r.2.calls)))
      = .ok (some (.DecodeFrameNoDelay 4), true) :=
  ⟨by rfl, by rfl, by rfl, by rfl, by decide, by decide, by rfl, by decide, by rfl, by rfl,
    by decide, by decide, by decide, by decide, by rfl⟩

/-- C11 (the code at the failing input): on the gapless track of four samples the decode
call for sample 0 reports status 4 without a picture.  Five `ReadRaw` calls return that
error, the pictures of samples 1, 2 and 3, and `ErrEndOfStream`.  The session is then
Exhausted, the decoder has reported 0 remaining frames and no flush was made, and the
in-flight map is not empty: it still holds sample 0, whose entry was registered before
the decode call and is removed nowhere, so `inDecoder` answers true for every time of
[0, 1000) although no sample is in the decoder. -/
theorem Exhausted_stale_entry :
    ReadRaw badFirstEnv 3 badFirst0 = .ok (none, some (.DecodeFrameNoDelay 4), badFirst1) ∧
    ReadRaw badFirstEnv 3 badFirst1 = .ok (some (demoPicture 1), none, badFirst2) ∧
    ReadRaw badFirstEnv 3 badFirst2 = .ok (some (demoPicture 2), none, badFirst3) ∧
    ReadRaw badFirstEnv 3 badFirst3 = .ok (some (demoPicture 3), none, badFirst4) ∧
    ReadRaw badFirstEnv 3 badFirst4 = .ok (none, some .ErrEndOfStream, badFirstExhausted) ∧
    badFirstExhausted.num_of_frames_in_buffer = -1 ∧
    badFirstEnv.dec.GetOption (badFirstEnv.dec.SetOption () 1) 1 = ((), 0) ∧
    badFirstExhausted.flushes = 0 ∧
    badFirstExhausted.samplesinDecoder = [(0, ⟨0, 0, 1000, 4⟩)] ∧
    badFirstExhausted.samplesinDecoder ≠ [] ∧
    (∀ t : Int, 0 ≤ t → t < 1000 → inDecoder badFirstExhausted t = true) :=
  ⟨by rfl, by rfl, by rfl, by rfl, by rfl, by rfl, by rfl, by decide, by rfl, by decide,
    fun t h0 h1 => by
      simp only [inDecoder, badFirstExhausted, badFirst4, badFirst3, badFirst2, badFirst1,
        List.any_cons, List.any_nil, Bool.or_false, decide_eq_true_eq]
      refine ⟨h0, ?_⟩
      have : int64 ((0 : Int) + int64 ((1000 : Nat) : Int)) = 1000 := by decide
      rw [this]; exact h1⟩
end StaleEntry

end Mp4decode
